import Mathlib

/-!
Shallow embedding of the team-and-membership registry of the Hermes bot
(sources in src/team.rs, src/student.rs, src/teamrequest.rs and
src/commands/team.rs).  Rust HashMap fields are embedded as association
lists with replace-on-insert semantics, HashSet fields as duplicate-free
lists, and the on-disk persistence layer (one JSON file per student, per
team, per guild team info, per guild name map, per guild config) as a
record of association lists called State.  Operations that can panic in
Rust (expect, assert, panic) return Option, with none standing for the
panic.
-/

set_option maxRecDepth 4000

/-! ### Association-list maps (embedding of HashMap) -/

/-- Lookup in an association list; first binding for the key wins. -/
def lookupMap {α β : Type} [DecidableEq α] : List (α × β) → α → Option β
  | [], _ => none
  | (k, v) :: rest, a => if a = k then some v else lookupMap rest a

/-- Insert with replacement, as HashMap.insert: any previous binding of the
key is dropped. -/
def insertMap {α β : Type} [DecidableEq α] (m : List (α × β)) (a : α) (b : β) :
    List (α × β) :=
  (a, b) :: m.filter (fun p => p.1 ≠ a)

/-- Remove every binding of the key, as HashMap.remove. -/
def eraseMap {α β : Type} [DecidableEq α] (m : List (α × β)) (a : α) :
    List (α × β) :=
  m.filter (fun p => p.1 ≠ a)

/-- Key membership, as HashMap.contains_key. -/
def containsMap {α β : Type} [DecidableEq α] (m : List (α × β)) (a : α) : Bool :=
  (lookupMap m a).isSome

/-! ### Data model -/

/-- Discord user identifier (serenity UserId), embedded as Nat. -/
abbrev UserId := Nat

/-- Discord guild identifier (serenity GuildId), embedded as Nat. -/
abbrev GuildId := Nat

/-- Tablon credentials of a student for one guild (main.rs, struct
Credentials). -/
structure Credentials where
  team : String
  password : Option String
deriving DecidableEq, Repr

/-- Invitation of a student to a team (teamrequest.rs, struct TeamRequest). -/
structure TeamRequest where
  team_id : String
  sender_id : UserId
deriving DecidableEq, Repr

/-- Per-student state (student.rs, struct Student).  Each HashMap keyed by
GuildId becomes an association list. -/
structure Student where
  id : UserId
  name : String
  credentials : List (GuildId × Credentials)
  preferred_queue : List (GuildId × String)
  last_command : List (GuildId × String)
  team_requests : List (GuildId × List TeamRequest)
  request_history : List (GuildId × List Nat)
deriving DecidableEq, Repr

/-- Per-team state (team.rs, struct Team).  The HashSet of members becomes a
list treated as a set. -/
structure Team where
  id : String
  pass : Option String
  guild : GuildId
  name : String
  members : List UserId
  confirmed : Bool
deriving DecidableEq, Repr

/-- Per-guild team registry state (team.rs, struct GuildTeamInfo).  The Rust
field named after the identifier stem is embedded as pfx; count is the u16
count field, held as a Nat below 2^16 with arithmetic taken mod 2^16 where
the source mutates it. -/
structure GuildTeamInfo where
  guild_id : GuildId
  pfx : String
  count : Nat
  passwords : List (String × String)
  holes : List String
deriving DecidableEq, Repr

/-- The two per-guild configuration values the team commands read from
BotConfig (utils.rs): team_capacity (u8) and the identifier stem. -/
structure BotConfig where
  team_capacity : Nat
  team_pfx : String
deriving DecidableEq, Repr

/-- Whole persisted system state: one entry per student file, per team file,
per guild team info file, per guild name map file, per guild config file. -/
structure State where
  students : List (UserId × Student)
  teams : List ((GuildId × String) × Team)
  infos : List (GuildId × GuildTeamInfo)
  namemaps : List (GuildId × List (String × String))
  configs : List (GuildId × BotConfig)
deriving DecidableEq, Repr

/-! ### Storage primitives (save / load of the JSON files) -/

def State.saveStudent (st : State) (s : Student) : State :=
  { st with students := insertMap st.students s.id s }

def State.saveTeam (st : State) (t : Team) : State :=
  { st with teams := insertMap st.teams (t.guild, t.id) t }

def State.eraseTeamFile (st : State) (g : GuildId) (tid : String) : State :=
  { st with teams := eraseMap st.teams (g, tid) }

def State.saveInfo (st : State) (info : GuildTeamInfo) : State :=
  { st with infos := insertMap st.infos info.guild_id info }

def State.saveNamemap (st : State) (g : GuildId) (nm : List (String × String)) :
    State :=
  { st with namemaps := insertMap st.namemaps g nm }

/-- student.rs get_student: read the student file, if present. -/
def getStudent (st : State) (uid : UserId) : Option Student :=
  lookupMap st.students uid

/-- team.rs get_team: read the team file, if present. -/
def getTeam (st : State) (g : GuildId) (tid : String) : Option Team :=
  lookupMap st.teams (g, tid)

/-- team.rs get_guild_team_info: read the guild team info file, if present. -/
def getGuildTeamInfo (st : State) (g : GuildId) : Option GuildTeamInfo :=
  lookupMap st.infos g

/-- utils.rs load_namemap: read the name map file; the Rust code panics
(expect) when the file is absent. -/
def loadNamemap (st : State) (g : GuildId) : Option (List (String × String)) :=
  lookupMap st.namemaps g

/-- utils.rs load_config: read the guild config file; panics when absent. -/
def loadConfig (st : State) (g : GuildId) : Option BotConfig :=
  lookupMap st.configs g

/-! ### Student operations (student.rs) -/

/-- Student::get_team_id. -/
def Student.get_team_id (s : Student) (g : GuildId) : Option String :=
  (lookupMap s.credentials g).map Credentials.team

/-- Student::add_team: store credentials for the guild and drop every pending
team request for that guild.  The Rust method ends in self.save, done by the
caller through State.saveStudent. -/
def Student.add_team (s : Student) (g : GuildId) (tid : String)
    (pw : Option String) : Student :=
  { s with
    credentials := insertMap s.credentials g ⟨tid, pw⟩
    team_requests := eraseMap s.team_requests g }

/-- Student::remove_team. -/
def Student.remove_team (s : Student) (g : GuildId) : Student :=
  { s with credentials := eraseMap s.credentials g }

/-- Student::set_password: asserts that credentials for the guild exist
(none embeds the failed assert), then overwrites only the password field. -/
def Student.set_password (s : Student) (g : GuildId) (pw : String) :
    Option Student :=
  match lookupMap s.credentials g with
  | none => none
  | some c =>
      some { s with credentials := insertMap s.credentials g ⟨c.team, some pw⟩ }

/-- Student::add_team_request: append to the guild entry, creating it if
absent. -/
def Student.add_team_request (s : Student) (g : GuildId) (tid : String)
    (sender : UserId) : Student :=
  match lookupMap s.team_requests g with
  | some reqs =>
      { s with team_requests := insertMap s.team_requests g (reqs ++ [⟨tid, sender⟩]) }
  | none =>
      { s with team_requests := insertMap s.team_requests g [⟨tid, sender⟩] }

/-! ### Identifier allocation (team.rs, GuildTeamInfo) -/

/-- The Rust format string with the 02 width flag: decimal digits, zero
padded on the left to at least two characters. -/
def pad2 (n : Nat) : String :=
  if n < 10 then "0" ++ toString n else toString n

/-- Embedding of str::parse::<u16> for the plain-digits case: all characters
must be digits and the value must fit in a u16. -/
def parseU16 (s : String) : Option Nat :=
  if s.data.isEmpty then none
  else if s.data.all Char.isDigit then
    let v := s.data.foldl (fun a c => a * 10 + (c.toNat - 48)) 0
    if v < 65536 then some v else none
  else none

/-- GuildTeamInfo::register_new_team, pure part: pop the most recent hole if
any, otherwise increment the count and build a fresh identifier.  The count
field is a u16, so the increment is 16-bit addition: at count = 65535 it
wraps to 0, as the compiled release binary does (a debug build would panic
there instead). -/
def GuildTeamInfo.register_new_team (info : GuildTeamInfo) :
    GuildTeamInfo × String :=
  match info.holes.getLast? with
  | some reused => ({ info with holes := info.holes.dropLast }, reused)
  | none =>
      ({ info with count := (info.count + 1) % 65536 },
        info.pfx ++ pad2 ((info.count + 1) % 65536))

/-- GuildTeamInfo::register_specific_team, pure part.  The numeric suffix is
parsed after skipping as many characters as the identifier stem has; none
embeds the parse panic and the already-in-use panic.  When the suffix
exceeds the count, the loop for i in count..suffix pushes one hole per
iteration. -/
def GuildTeamInfo.register_specific_team (info : GuildTeamInfo)
    (team_id : String) : Option GuildTeamInfo :=
  match parseU16 (team_id.drop info.pfx.length) with
  | none => none
  | some team_num =>
      if team_num > info.count then
        some { info with
          holes := info.holes ++
            (List.range' info.count (team_num - info.count)).map
              (fun i => info.pfx ++ pad2 i)
          count := team_num }
      else
        if team_id ∈ info.holes then
          some { info with holes := info.holes.filter (fun id => id ≠ team_id) }
        else
          none

/-- GuildTeamInfo::discard_team, pure part. -/
def GuildTeamInfo.discard_team (info : GuildTeamInfo) (team_id : String) :
    GuildTeamInfo :=
  { info with holes := info.holes ++ [team_id] }

/-- GuildTeamInfo::update_passwords, pure part. -/
def GuildTeamInfo.update_passwords (info : GuildTeamInfo)
    (pws : List (String × String)) : GuildTeamInfo :=
  { info with passwords := pws }

/-- team.rs register_team: load the guild team info (panic when absent), run
register_new_team and persist the result. -/
def registerTeam (st : State) (g : GuildId) : Option (State × String) :=
  match getGuildTeamInfo st g with
  | none => none
  | some info =>
      let r := info.register_new_team
      some (st.saveInfo r.1, r.2)

/-- GuildTeamInfo::new at the level of the persisted state: build and save a
fresh registry for the guild. -/
def GuildTeamInfo.new (st : State) (g : GuildId) (pfx : String) :
    State × GuildTeamInfo :=
  let info : GuildTeamInfo := ⟨g, pfx, 0, [], []⟩
  (st.saveInfo info, info)

/-! ### Team operations (team.rs), at the level of the persisted state -/

/-- Team::new: look up a staged password in the guild team info, save the
fresh team (name initialized to the identifier, empty members, unconfirmed),
and seed the guild name map with an id-to-id entry.  none embeds the
load_namemap panic when the name map file is absent. -/
def Team.new (st : State) (g : GuildId) (id : String) : Option (State × Team) :=
  let pw := match getGuildTeamInfo st g with
    | some info => lookupMap info.passwords id
    | none => none
  let t : Team := ⟨id, pw, g, id, [], false⟩
  let st1 := st.saveTeam t
  match loadNamemap st1 g with
  | none => none
  | some nm => some (st1.saveNamemap g (insertMap nm id id), t)

/-- Team::add_member: no-op when the user is already in the member set;
otherwise insert the member, update the student (credentials copied from the
team, pending requests for the guild dropped) and save both records. -/
def Team.add_member (st : State) (t : Team) (s : Student) :
    State × Team × Student :=
  if s.id ∈ t.members then (st, t, s)
  else
    let t' := { t with members := s.id :: t.members }
    let s' := s.add_team t.guild t.id t.pass
    ((st.saveStudent s').saveTeam t', t', s')

/-- Team::change_name: silently ignored when the new name is already a key
of the guild name map; otherwise the name is set and a newName-to-id entry
is inserted.  The previous name is left in the map. -/
def Team.change_name (st : State) (t : Team) (name : String) :
    Option (State × Team) :=
  match loadNamemap st t.guild with
  | none => none
  | some nm =>
      if containsMap nm name then some (st, t)
      else
        let t' := { t with name := name }
        some ((st.saveNamemap t.guild (insertMap nm name t.id)).saveTeam t', t')

/-- One step of the propagation loop in Team::set_password: load the member
(panic when absent), overwrite the password inside their credentials (the
Rust side asserts the credentials exist) and save the student. -/
def setPwFold (g : GuildId) (pw : String) : List UserId → State → Option State
  | [], st => some st
  | uid :: rest, st =>
      match getStudent st uid with
      | none => none
      | some s =>
          match s.set_password g pw with
          | none => none
          | some s' => setPwFold g pw rest (st.saveStudent s')

/-- Team::set_password: set the password on the team, push it into the
stored credentials of every current member, then save the team. -/
def Team.set_password (st : State) (t : Team) (pw : String) :
    Option (State × Team) :=
  let t' := { t with pass := some pw }
  match setPwFold t.guild pw t'.members st with
  | none => none
  | some st1 => some (st1.saveTeam t', t')

/-- The loop in Team::delete clearing the credentials of every remaining
member. -/
def removeCredsFold (g : GuildId) : List UserId → State → Option State
  | [], st => some st
  | uid :: rest, st =>
      match getStudent st uid with
      | none => none
      | some s => removeCredsFold g rest (st.saveStudent (s.remove_team g))

/-- Team::delete: clear the credentials of every remaining member, then
delete the persisted team file (panic when the file is absent). -/
def Team.delete (st : State) (t : Team) : Option State :=
  match removeCredsFold t.guild t.members st with
  | none => none
  | some st1 =>
      if (getTeam st1 t.guild t.id).isSome then
        some (st1.eraseTeamFile t.guild t.id)
      else none

/-- Team::remove_member: no-op for a non-member; otherwise drop the member,
clear the student credentials for the guild, and either re-save the team or,
when the member set drained, delete the team record, release the current
name from the guild name map and push the identifier onto the guild holes. -/
def Team.remove_member (st : State) (t : Team) (s : Student) :
    Option (State × Team × Student) :=
  if s.id ∈ t.members then
    let t' := { t with members := t.members.filter (fun uid => uid ≠ s.id) }
    let s' := s.remove_team t.guild
    let st1 := st.saveStudent s'
    if t'.members.isEmpty then
      match Team.delete st1 t' with
      | none => none
      | some st2 =>
          match loadNamemap st2 t.guild with
          | none => none
          | some nm =>
              let st3 := st2.saveNamemap t.guild (eraseMap nm t'.name)
              match getGuildTeamInfo st3 t.guild with
              | none => none
              | some info =>
                  some (st3.saveInfo { info with holes := info.holes ++ [t.id] },
                    t', s')
    else some (st1.saveTeam t', t', s')
  else some (st, t, s)

/-- Team::confirm. -/
def Team.confirm (st : State) (t : Team) : State × Team :=
  let t' := { t with confirmed := true }
  (st.saveTeam t', t')

/-- Team::unconfirm. -/
def Team.unconfirm (st : State) (t : Team) : State × Team :=
  let t' := { t with confirmed := false }
  (st.saveTeam t', t')

/-! ### Command layer (commands/team.rs) -/

/-- Observable outcome of a team command, as signalled by the reply text. -/
inductive CmdOutcome where
  | ok
  | alreadyAffiliated
  | notAffiliated
  | notInvited
  | teamLocked
  | tooManyInvitees
  | capacityExceeded
deriving DecidableEq, Repr

/-- The invitee-collection loop shared by the create and invite commands:
self-invitations and already-affiliated students are skipped, the remaining
in-memory snapshots are collected in order (panic when a student file is
missing). -/
def collectInvitable (st : State) (g : GuildId) (selfId : UserId) :
    List UserId → Option (List Student)
  | [] => some []
  | o :: rest =>
      if o = selfId then collectInvitable st g selfId rest
      else
        match getStudent st o with
        | none => none
        | some os =>
            match collectInvitable st g selfId rest with
            | none => none
            | some tail =>
                if (os.get_team_id g).isSome then some tail
                else some (os :: tail)

/-- The invitation-sending loop: every collected in-memory snapshot gets the
request appended and is saved. -/
def sendInvites (g : GuildId) (tid : String) (sender : UserId) :
    List Student → State → State
  | [], st => st
  | os :: rest, st =>
      sendInvites g tid sender rest (st.saveStudent (os.add_team_request g tid sender))

namespace Commands

/-- commands/team.rs join: reject when the caller is already in a team or
holds no matching invitation; otherwise load the team (panic when its file
is absent) and add the caller through Team::add_member. -/
def join (st : State) (g : GuildId) (uid : UserId) (team_id : String) :
    Option (State × CmdOutcome) :=
  match getStudent st uid with
  | none => none
  | some s =>
      if (s.get_team_id g).isSome then some (st, .alreadyAffiliated)
      else
        match lookupMap s.team_requests g with
        | none => some (st, .notInvited)
        | some reqs =>
            if (reqs.filter (fun r => r.team_id == team_id)).isEmpty then
              some (st, .notInvited)
            else
              match getTeam st g team_id with
              | none => none
              | some t =>
                  let r := Team.add_member st t s
                  some (r.1, .ok)

/-- commands/team.rs leave: reject when the caller has no team or the team
is confirmed; otherwise remove the caller through Team::remove_member. -/
def leave (st : State) (g : GuildId) (uid : UserId) :
    Option (State × CmdOutcome) :=
  match getStudent st uid with
  | none => none
  | some s =>
      match s.get_team_id g with
      | none => some (st, .notAffiliated)
      | some team_id =>
          match getTeam st g team_id with
          | none => none
          | some t =>
              if t.confirmed then some (st, .teamLocked)
              else
                match Team.remove_member st t s with
                | none => none
                | some r => some (r.1, .ok)

/-- commands/team.rs invite: reject when the caller has no team, the team is
confirmed, or the invitee list exceeds the remaining capacity; otherwise
collect the invitable students and send them the requests. -/
def invite (st : State) (g : GuildId) (uid : UserId) (others : List UserId) :
    Option (State × CmdOutcome) :=
  match getStudent st uid with
  | none => none
  | some s =>
      match s.get_team_id g with
      | none => some (st, .notAffiliated)
      | some team_id =>
          match getTeam st g team_id with
          | none => none
          | some t =>
              if t.confirmed then some (st, .teamLocked)
              else
                match loadConfig st g with
                | none => none
                | some cfg =>
                    if others.length > cfg.team_capacity - t.members.length then
                      some (st, .capacityExceeded)
                    else
                      match collectInvitable st g uid others with
                      | none => none
                      | some invitable =>
                          some (sendInvites g t.id uid invitable st, .ok)

/-- commands/team.rs create: reject when the caller already has a team or
invited more students than capacity minus one; otherwise collect the
invitable students, create the guild registry if absent, allocate an
identifier, create and join the team, and send the invitations.  The new
team identifier is returned on success. -/
def create (st : State) (g : GuildId) (uid : UserId) (others : List UserId) :
    Option (State × CmdOutcome × Option String) :=
  match getStudent st uid with
  | none => none
  | some s =>
      if (s.get_team_id g).isSome then some (st, .alreadyAffiliated, none)
      else
        match loadConfig st g with
        | none => none
        | some cfg =>
            if others.length > cfg.team_capacity - 1 then
              some (st, .tooManyInvitees, none)
            else
              match collectInvitable st g uid others with
              | none => none
              | some invitable =>
                  let st1 := if (getGuildTeamInfo st g).isNone then
                      (GuildTeamInfo.new st g cfg.team_pfx).1
                    else st
                  match registerTeam st1 g with
                  | none => none
                  | some r2 =>
                      match Team.new r2.1 g r2.2 with
                      | none => none
                      | some r3 =>
                          let r4 := Team.add_member r3.1 r3.2 s
                          some (sendInvites g r3.2.id uid invitable r4.1,
                            .ok, some r3.2.id)

end Commands

/-! ### The registry invariant (section 4.2 of the specification) -/

/-- Credentials of a student for a guild, as read back from the persisted
state. -/
def credOf (st : State) (uid : UserId) (g : GuildId) : Option Credentials :=
  match getStudent st uid with
  | some s => lookupMap s.credentials g
  | none => none

/-- Key consistency of the persisted records: a team file stores the guild
and identifier it is keyed by, and a student file stores its own id. -/
def WFState (st : State) : Prop :=
  (∀ e ∈ st.teams, e.2.guild = e.1.1 ∧ e.2.id = e.1.2) ∧
  (∀ se ∈ st.students, se.2.id = se.1)

/-- Forward half of the registry invariant: every member of every stored
team holds credentials, for the team guild, whose team field is the team
identifier and whose password field equals the team password. -/
def MembersHaveCreds (st : State) : Prop :=
  ∀ e ∈ st.teams, ∀ uid ∈ e.2.members,
    credOf st uid e.2.guild = some ⟨e.2.id, e.2.pass⟩

/-- Backward half of the registry invariant: every credentials entry of
every stored student record points at a stored team of that guild having the
student as a member. -/
def CredsHaveMember (st : State) : Prop :=
  ∀ se ∈ st.students, ∀ ce ∈ se.2.credentials,
    ∃ t ∈ (getTeam st ce.1 ce.2.team).toList, se.1 ∈ t.members

/-- The full registry invariant. -/
def RegistryInv (st : State) : Prop :=
  WFState st ∧ MembersHaveCreds st ∧ CredsHaveMember st

instance (st : State) : Decidable (WFState st) := by
  unfold WFState
  infer_instance

instance (st : State) : Decidable (MembersHaveCreds st) := by
  unfold MembersHaveCreds
  infer_instance

instance (st : State) : Decidable (CredsHaveMember st) := by
  unfold CredsHaveMember
  infer_instance

instance (st : State) : Decidable (RegistryInv st) := by
  unfold RegistryInv
  infer_instance

/-! ### Concrete states used by witnesses and counterexamples -/

/-- A student affiliated with team g01 of guild 0. -/
def exStudent1 : Student := ⟨1, "alice", [(0, ⟨"g01", none⟩)], [], [], [], []⟩

/-- An unaffiliated student holding pending invitations to g01 and g07 of
guild 0. -/
def exStudent2 : Student :=
  ⟨2, "bob", [], [], [], [(0, [⟨"g01", 1⟩, ⟨"g07", 3⟩])], []⟩

/-- Team g01 of guild 0 with the single member 1. -/
def exTeam1 : Team := ⟨"g01", none, 0, "g01", [1], false⟩

/-- The same team, confirmed. -/
def exTeam1c : Team := ⟨"g01", none, 0, "g01", [1], true⟩

/-- A second, empty team g02 of guild 0. -/
def exTeamB : Team := ⟨"g02", none, 0, "g02", [], false⟩

/-- A small consistent state: students 1 and 2, team g01 with member 1,
a registry with count 1, the seeded name map, and capacity 2. -/
def exState : State :=
  ⟨[(1, exStudent1), (2, exStudent2)], [((0, "g01"), exTeam1)],
    [(0, ⟨0, "g", 1, [], []⟩)], [(0, [("g01", "g01")])], [(0, ⟨2, "g"⟩)]⟩

/-- exState with team g01 confirmed. -/
def exStateC : State :=
  ⟨[(1, exStudent1), (2, exStudent2)], [((0, "g01"), exTeam1c)],
    [(0, ⟨0, "g", 1, [], []⟩)], [(0, [("g01", "g01")])], [(0, ⟨2, "g"⟩)]⟩

/-- A state holding student 1 (member of g01) and the two teams g01 and g02,
used to break the invariant by a raw add_member of an affiliated student. -/
def exStateB : State :=
  ⟨[(1, exStudent1)], [((0, "g01"), exTeam1), ((0, "g02"), exTeamB)],
    [], [], []⟩

/-- Result of renaming team g01 of exState to a. -/
def c8Step1 : State × Team :=
  (Team.change_name exState exTeam1 "a").getD (exState, exTeam1)

/-- Result of removing member 1 from team g01 of exState. -/
def c4Res : State × Team × Student :=
  (Team.remove_member exState exTeam1 exStudent1).getD
    (exState, exTeam1, exStudent1)

/-- A third student, affiliated with team g01 of guild 0. -/
def exStudent3 : Student := ⟨3, "carol", [(0, ⟨"g01", none⟩)], [], [], [], []⟩

/-- Team g01 of guild 0 holding two members, matching the configured
capacity 2. -/
def exTeamFull : Team := ⟨"g01", none, 0, "g01", [1, 3], false⟩

/-- A state in which team g01 is at the configured capacity of 2 and
student 2 still holds a pending invitation to it. -/
def exStateFull : State :=
  ⟨[(1, exStudent1), (2, exStudent2), (3, exStudent3)],
    [((0, "g01"), exTeamFull)], [(0, ⟨0, "g", 1, [], []⟩)],
    [(0, [("g01", "g01")])], [(0, ⟨2, "g"⟩)]⟩

/-- Result of student 2 joining the full team g01. -/
def c9Res : State × CmdOutcome :=
  (Commands.join exStateFull 0 2 "g01").getD (exStateFull, CmdOutcome.notInvited)

/-- Result of student 2 joining the confirmed team g01 of exStateC. -/
def c3Res : State × CmdOutcome :=
  (Commands.join exStateC 0 2 "g01").getD (exStateC, CmdOutcome.notInvited)

/-- An initial state for the create-invite-join scenario: students 1 and 2
unaffiliated, student 2 already holding an invitation to g07, no teams, no
guild registry yet, an empty name map and capacity 2. -/
def c5St0 : State :=
  ⟨[(1, ⟨1, "alice", [], [], [], [], []⟩),
    (2, ⟨2, "bob", [], [], [], [(0, [⟨"g07", 3⟩])], []⟩)],
    [], [], [(0, [])], [(0, ⟨2, "g"⟩)]⟩

/-- State after student 1 creates a team in c5St0. -/
def c5St1 : State :=
  ((Commands.create c5St0 0 1 []).getD (c5St0, CmdOutcome.notInvited, none)).1

/-- State after student 1 invites student 2. -/
def c5St2 : State :=
  ((Commands.invite c5St1 0 1 [2]).getD (c5St1, CmdOutcome.notInvited)).1

/-- State after student 2 joins team g01. -/
def c5St3 : State :=
  ((Commands.join c5St2 0 2 "g01").getD (c5St2, CmdOutcome.notInvited)).1

/-! ### Lemmas about association-list maps -/

theorem lookupMap_filter_of_holds {α β : Type} [DecidableEq α]
    (m : List (α × β)) (q : α × β → Bool) (a : α)
    (h : ∀ b, q (a, b) = true) :
    lookupMap (m.filter q) a = lookupMap m a := by
  induction m with
  | nil => rfl
  | cons p rest ih =>
    obtain ⟨k, v⟩ := p
    by_cases hq : q (k, v) = true
    · by_cases hak : a = k
      · subst hak
        simp [List.filter, hq, lookupMap]
      · simp [List.filter, hq, lookupMap, hak, ih]
    · have hak : ¬a = k := by
        intro hak
        subst hak
        exact hq (h v)
      simp only [Bool.not_eq_true] at hq
      simp [List.filter, hq, lookupMap, hak, ih]

theorem lookupMap_filter_of_fails {α β : Type} [DecidableEq α]
    (m : List (α × β)) (q : α × β → Bool) (a : α)
    (h : ∀ b, q (a, b) = false) :
    lookupMap (m.filter q) a = none := by
  induction m with
  | nil => rfl
  | cons p rest ih =>
    obtain ⟨k, v⟩ := p
    by_cases hq : q (k, v) = true
    · have hak : ¬a = k := by
        intro hak
        subst hak
        rw [h v] at hq
        exact Bool.false_ne_true hq
      simp [List.filter, hq, lookupMap, hak, ih]
    · simp only [Bool.not_eq_true] at hq
      simp [List.filter, hq, ih]

theorem lookupMap_insertMap_self {α β : Type} [DecidableEq α]
    (m : List (α × β)) (a : α) (b : β) :
    lookupMap (insertMap m a b) a = some b := by
  simp [insertMap, lookupMap]

theorem lookupMap_insertMap_ne {α β : Type} [DecidableEq α]
    (m : List (α × β)) (a a' : α) (b : β) (h : a' ≠ a) :
    lookupMap (insertMap m a b) a' = lookupMap m a' := by
  simp only [insertMap, lookupMap, if_neg h]
  exact lookupMap_filter_of_holds m _ a' (fun c => by simp [h])

theorem lookupMap_eraseMap_self {α β : Type} [DecidableEq α]
    (m : List (α × β)) (a : α) :
    lookupMap (eraseMap m a) a = none :=
  lookupMap_filter_of_fails m _ a (fun b => by simp)

theorem lookupMap_eraseMap_ne {α β : Type} [DecidableEq α]
    (m : List (α × β)) (a a' : α) (h : a' ≠ a) :
    lookupMap (eraseMap m a) a' = lookupMap m a' := by
  exact lookupMap_filter_of_holds m _ a' (fun c => by simp [fun hc => h hc])

theorem mem_insertMap {α β : Type} [DecidableEq α]
    (m : List (α × β)) (a : α) (b : β) (p : α × β) :
    p ∈ insertMap m a b ↔ p = (a, b) ∨ (p ∈ m ∧ p.1 ≠ a) := by
  simp [insertMap, List.mem_filter]

theorem mem_eraseMap {α β : Type} [DecidableEq α]
    (m : List (α × β)) (a : α) (p : α × β) :
    p ∈ eraseMap m a ↔ p ∈ m ∧ p.1 ≠ a := by
  simp [eraseMap, List.mem_filter]

theorem lookupMap_mem {α β : Type} [DecidableEq α]
    (m : List (α × β)) (a : α) (b : β) (h : lookupMap m a = some b) :
    (a, b) ∈ m := by
  induction m with
  | nil => simp [lookupMap] at h
  | cons p rest ih =>
    obtain ⟨k, v⟩ := p
    simp only [lookupMap] at h
    by_cases hpa : a = k
    · rw [if_pos hpa] at h
      injection h with hvb
      subst hvb
      subst hpa
      exact List.mem_cons_self _ _
    · rw [if_neg hpa] at h
      exact List.mem_cons_of_mem _ (ih h)

/-! ### C2: administrative identifier assignment (code bug) -/

/-- C2 (code bug witness): with stem g, count 2 and no holes, the call
register_specific_team with g05 sets the count to 5 but pushes g02, g03 and
g04 onto holes: the Rust loop for i in count..team_num starts at the old
count instead of one past it, so the already-issued identifier g02 is also
retired.  The specification requires exactly g03 and g04. -/
theorem register_specific_team_bug :
    GuildTeamInfo.register_specific_team ⟨0, "g", 2, [], []⟩ "g05" =
      some ⟨0, "g", 5, [], ["g02", "g03", "g04"]⟩ := by
  decide

/-! ### C6: fresh identifier allocation (corrected) -/

/-- C6 (counterexample): at the representable registry state with count
65535 — the u16 maximum, reachable through register_specific_team — and no
holes, register_new_team does not increment the count by one: the 16-bit
addition wraps to 0 as the release binary does (a debug build panics there),
and the returned identifier is g00, not a fresh one. -/
theorem register_new_team_wrap_counterexample :
    GuildTeamInfo.register_new_team ⟨0, "g", 65535, [], []⟩ =
      (⟨0, "g", 0, [], []⟩, "g00") := by
  decide

/-- C6 (amended): register_new_team pops and returns the most recently
retired identifier (the last hole) leaving the count unchanged when holes is
nonempty; when holes is empty and the u16 count is below its maximum 65535,
it increments the count by one and returns the stem followed by the
zero-padded new count (at count 65535 the 16-bit increment wraps instead). -/
theorem register_new_team_spec (info : GuildTeamInfo) :
    (∀ l, info.holes.getLast? = some l →
      info.register_new_team = ({ info with holes := info.holes.dropLast }, l)) ∧
    (info.holes = [] → info.count < 65535 →
      info.register_new_team =
        ({ info with count := info.count + 1 },
          info.pfx ++ pad2 (info.count + 1))) := by
  constructor
  · intro l hl
    simp [GuildTeamInfo.register_new_team, hl]
  · intro h hlt
    have hm : (info.count + 1) % 65536 = info.count + 1 :=
      Nat.mod_eq_of_lt (by omega)
    simp [GuildTeamInfo.register_new_team, h, hm]

/-- C6 (witness): the previous theorem applied to a registry with holes g05
and g03, and to one with no holes and count 7. -/
theorem register_new_team_spec_witness :
    (GuildTeamInfo.register_new_team ⟨0, "g", 7, [], ["g05", "g03"]⟩ =
      (⟨0, "g", 7, [], ["g05"]⟩, "g03")) ∧
    (GuildTeamInfo.register_new_team ⟨0, "g", 7, [], []⟩ =
      (⟨0, "g", 8, [], []⟩, "g08")) := by
  constructor
  · exact (register_new_team_spec ⟨0, "g", 7, [], ["g05", "g03"]⟩).1 "g03" (by decide)
  · exact (register_new_team_spec ⟨0, "g", 7, [], []⟩).2 rfl (by decide)

/-! ### C7: idempotence of add_member -/

/-- C7: add_member is idempotent at the level of the persisted state: a
second application to the outputs of the first changes nothing, because the
member set already contains the student. -/
theorem add_member_idempotent (st : State) (t : Team) (s : Student) :
    Team.add_member (Team.add_member st t s).1 (Team.add_member st t s).2.1
        (Team.add_member st t s).2.2 =
      Team.add_member st t s := by
  unfold Team.add_member
  by_cases h : s.id ∈ t.members
  · simp [h]
  · simp [h, Student.add_team]

/-! ### C8: renaming a team (corrected) -/

/-- C8 (counterexample): renaming team g01 of exState to a succeeds but the
stale entry for g01 stays in the guild name map (the claim requires the old
name removed); a subsequent rename back to g01 — a name now mapping to this
very team, not to a different one — is silently ignored, though the claim
requires it to proceed. -/
theorem change_name_claim_counterexample :
    Team.change_name exState exTeam1 "a" = some c8Step1 ∧
    c8Step1.2.name = "a" ∧
    lookupMap ((loadNamemap c8Step1.1 0).getD []) "g01" = some c8Step1.2.id ∧
    Team.change_name c8Step1.1 c8Step1.2 "g01" = some (c8Step1.1, c8Step1.2) := by
  decide

/-- C8 (amended): change_name is a silent no-op exactly when the new name is
already a key of the guild name map, whether it maps to this team or to a
different one; otherwise it sets the name, saves the team and inserts the
new entry into the map, leaving any entry under the old name in place. -/
theorem change_name_spec (st : State) (t : Team) (nm : List (String × String))
    (name : String) (h : loadNamemap st t.guild = some nm) :
    (containsMap nm name = true → Team.change_name st t name = some (st, t)) ∧
    (containsMap nm name = false →
      Team.change_name st t name =
        some ((st.saveNamemap t.guild (insertMap nm name t.id)).saveTeam
            { t with name := name },
          { t with name := name }) ∧
      lookupMap (insertMap nm name t.id) name = some t.id ∧
      ∀ old, old ≠ name → lookupMap (insertMap nm name t.id) old = lookupMap nm old) := by
  constructor
  · intro hc
    simp [Team.change_name, h, hc]
  · intro hc
    refine ⟨by simp [Team.change_name, h, hc], lookupMap_insertMap_self _ _ _, ?_⟩
    intro old hold
    exact lookupMap_insertMap_ne _ _ _ _ hold

/-- C8 (witness): the amended theorem applied to exState and team g01, with
the occupied name g01 and with the fresh name a. -/
theorem change_name_spec_witness :
    Team.change_name exState exTeam1 "g01" = some (exState, exTeam1) ∧
    Team.change_name exState exTeam1 "a" =
      some ((exState.saveNamemap 0 (insertMap [("g01", "g01")] "a" "g01")).saveTeam
          { exTeam1 with name := "a" },
        { exTeam1 with name := "a" }) := by
  constructor
  · exact (change_name_spec exState exTeam1 [("g01", "g01")] "g01" (by decide)).1
      (by decide)
  · exact ((change_name_spec exState exTeam1 [("g01", "g01")] "a" (by decide)).2
      (by decide)).1

/-! ### C10: confirm and unconfirm only toggle the flag -/

/-- C10: confirm and unconfirm change only the confirmed flag of the team:
identifier, name, password and members are kept, every student record, every
guild registry, every name map and every config is untouched, and the only
team record that changes is the one under the team key, which is re-saved
with just the flag flipped. -/
theorem confirm_unconfirm_frame (st : State) (t : Team) :
    (Team.confirm st t).2 = { t with confirmed := true } ∧
    (Team.unconfirm st t).2 = { t with confirmed := false } ∧
    (Team.confirm st t).1.students = st.students ∧
    (Team.confirm st t).1.infos = st.infos ∧
    (Team.confirm st t).1.namemaps = st.namemaps ∧
    (Team.confirm st t).1.configs = st.configs ∧
    (Team.unconfirm st t).1.students = st.students ∧
    (Team.unconfirm st t).1.infos = st.infos ∧
    (Team.unconfirm st t).1.namemaps = st.namemaps ∧
    (Team.unconfirm st t).1.configs = st.configs ∧
    getTeam (Team.confirm st t).1 t.guild t.id = some { t with confirmed := true } ∧
    getTeam (Team.unconfirm st t).1 t.guild t.id = some { t with confirmed := false } ∧
    ∀ g tid, (g, tid) ≠ (t.guild, t.id) →
      getTeam (Team.confirm st t).1 g tid = getTeam st g tid ∧
      getTeam (Team.unconfirm st t).1 g tid = getTeam st g tid := by
  refine ⟨rfl, rfl, rfl, rfl, rfl, rfl, rfl, rfl, rfl, rfl, ?_, ?_, ?_⟩
  · exact lookupMap_insertMap_self _ _ _
  · exact lookupMap_insertMap_self _ _ _
  · intro g tid hk
    exact ⟨lookupMap_insertMap_ne _ _ _ _ hk, lookupMap_insertMap_ne _ _ _ _ hk⟩

/-- C10 (witness): the frame theorem applied to exState and team g01, read
back at the touched key and at a different key. -/
theorem confirm_unconfirm_frame_witness :
    getTeam (Team.confirm exState exTeam1).1 0 "g01" = some exTeam1c ∧
    getTeam (Team.confirm exState exTeam1).1 5 "z" = getTeam exState 5 "z" := by
  have h := confirm_unconfirm_frame exState exTeam1
  exact ⟨h.2.2.2.2.2.2.2.2.2.2.1,
    (h.2.2.2.2.2.2.2.2.2.2.2.2 5 "z" (by decide)).1⟩

/-! ### C4: removing a member -/

/-- C4: remove_member of a non-member is a no-op; removing a member drops
them from the member set and clears their stored credentials for the guild;
when the set stays nonempty the team record is re-saved, and when it drains
the record is deleted, the current name is released from the guild name map,
and the identifier is pushed onto the guild holes, from which the very next
register_new_team returns it. -/
theorem remove_member_spec (st : State) (t : Team) (s : Student)
    (ht : getTeam st t.guild t.id = some t)
    (hinfos : ∀ e ∈ st.infos, e.2.guild_id = e.1) :
    (s.id ∉ t.members → Team.remove_member st t s = some (st, t, s)) ∧
    (s.id ∈ t.members →
      ∀ st' t' s', Team.remove_member st t s = some (st', t', s') →
        t'.members = t.members.filter (fun uid => uid ≠ s.id) ∧
        s' = s.remove_team t.guild ∧
        lookupMap s'.credentials t.guild = none ∧
        getStudent st' s.id = some s' ∧
        (t.members.filter (fun uid => uid ≠ s.id) ≠ [] →
          getTeam st' t.guild t.id = some t') ∧
        (t.members.filter (fun uid => uid ≠ s.id) = [] →
          getTeam st' t.guild t.id = none ∧
          (∃ nm, loadNamemap st' t.guild = some nm ∧
            lookupMap nm t.name = none) ∧
          ∃ infoAfter, getGuildTeamInfo st' t.guild = some infoAfter ∧
            infoAfter.holes.getLast? = some t.id ∧
            registerTeam st' t.guild =
              some (st'.saveInfo
                { infoAfter with holes := infoAfter.holes.dropLast }, t.id))) := by
  constructor
  · intro h
    simp [Team.remove_member, h]
  · intro hmem st' t' s' heq
    unfold Team.remove_member at heq
    rw [if_pos hmem] at heq
    by_cases hfil : t.members.filter (fun uid => uid ≠ s.id) = []
    · rw [hfil] at heq
      simp only [List.isEmpty_nil, if_true] at heq
      unfold Team.delete at heq
      simp only [removeCredsFold] at heq
      have hteams1 : getTeam (st.saveStudent (s.remove_team t.guild)) t.guild t.id
          = some t := ht
      rw [hteams1] at heq
      simp only [Option.isSome_some, if_true] at heq
      rcases hnm : loadNamemap
          ((st.saveStudent (s.remove_team t.guild)).eraseTeamFile t.guild t.id)
          t.guild with _ | nm
      · rw [hnm] at heq
        exact absurd heq (by simp)
      · rw [hnm] at heq
        simp only [] at heq
        rcases hinf : getGuildTeamInfo
            (((st.saveStudent (s.remove_team t.guild)).eraseTeamFile t.guild
              t.id).saveNamemap t.guild (eraseMap nm t.name)) t.guild with _ | info
        · rw [hinf] at heq
          exact absurd heq (by simp)
        · rw [hinf] at heq
          injection heq with heq
          injection heq with h1 heq
          injection heq with h2 h3
          subst h1
          subst h2
          subst h3
          have hgid : info.guild_id = t.guild := by
            have hmm := lookupMap_mem _ _ _ hinf
            exact hinfos _ hmm
          have hinfoAfter : getGuildTeamInfo
              ((((st.saveStudent (s.remove_team t.guild)).eraseTeamFile t.guild
                t.id).saveNamemap t.guild (eraseMap nm t.name)).saveInfo
                  { info with holes := info.holes ++ [t.id] }) t.guild =
              some { info with holes := info.holes ++ [t.id] } := by
            show lookupMap _ t.guild = _
            simp only [State.saveInfo]
            rw [show ({ info with holes := info.holes ++ [t.id] } :
              GuildTeamInfo).guild_id = t.guild from hgid]
            exact lookupMap_insertMap_self _ _ _
          refine ⟨hfil.symm, rfl, lookupMap_eraseMap_self _ _, ?_, ?_, ?_⟩
          · exact lookupMap_insertMap_self _ _ _
          · intro h
            exact absurd hfil h
          · intro _
            refine ⟨?_, ⟨eraseMap nm t.name, ?_, lookupMap_eraseMap_self _ _⟩, ?_⟩
            · exact lookupMap_eraseMap_self _ _
            · show lookupMap _ t.guild = _
              simp only [State.saveInfo, State.saveNamemap]
              exact lookupMap_insertMap_self _ _ _
            · refine ⟨{ info with holes := info.holes ++ [t.id] },
                hinfoAfter, List.getLast?_concat _, ?_⟩
              unfold registerTeam
              rw [hinfoAfter]
              simp [GuildTeamInfo.register_new_team, List.getLast?_concat]
    · have hfil' : (t.members.filter (fun uid => uid ≠ s.id)).isEmpty = false := by
        simpa [List.isEmpty_iff] using hfil
      simp only [hfil', if_false, Bool.false_eq_true] at heq
      injection heq with heq
      injection heq with h1 heq
      injection heq with h2 h3
      subst h1
      subst h2
      subst h3
      refine ⟨rfl, rfl, lookupMap_eraseMap_self _ _, ?_, ?_, ?_⟩
      · show lookupMap _ _ = _
        simp only [State.saveTeam, State.saveStudent]
        exact lookupMap_insertMap_self _ _ _
      · intro _
        exact lookupMap_insertMap_self _ _ _
      · intro h
        exact absurd h hfil

/-- C4 (witness): removing the last member of team g01 in exState clears the
credentials and deletes the team record. -/
theorem remove_member_spec_witness :
    getTeam c4Res.1 0 "g01" = none ∧
    lookupMap c4Res.2.2.credentials 0 = none := by
  have h := (remove_member_spec exState exTeam1 exStudent1 (by decide)
    (by decide)).2 (by decide) c4Res.1 c4Res.2.1 c4Res.2.2 (by decide)
  exact ⟨(h.2.2.2.2.2 (by decide)).1, h.2.2.1⟩

/-! ### C9: join and team capacity (corrected) -/

/-- C9 (counterexample): in exStateFull the configured capacity is 2 and
team g01 already has the two members 1 and 3, yet the invited, unaffiliated
student 2 joins successfully with outcome ok and the member set grows to
three — the claim requires a CapacityExceeded rejection with no change. -/
theorem join_capacity_counterexample :
    (loadConfig exStateFull 0).map BotConfig.team_capacity = some 2 ∧
    getTeam exStateFull 0 "g01" = some exTeamFull ∧
    exTeamFull.members.length = 2 ∧
    Commands.join exStateFull 0 2 "g01" = some (c9Res.1, CmdOutcome.ok) ∧
    (getTeam c9Res.1 0 "g01").map Team.members = some [2, 1, 3] := by
  decide

/-- C9 (amended): the join command performs no capacity check at all: an
unaffiliated student holding a matching pending invitation is added through
add_member whatever the configured capacity and the current member count,
and the member set grows by the student. -/
theorem join_no_capacity_check (st : State) (g : GuildId) (uid : UserId)
    (tid : String) (s : Student) (t : Team) (reqs : List TeamRequest)
    (hs : getStudent st uid = some s)
    (hsid : s.id = uid)
    (hcred : lookupMap s.credentials g = none)
    (hreqs : lookupMap s.team_requests g = some reqs)
    (hmatch : (reqs.filter (fun r => r.team_id == tid)).isEmpty = false)
    (ht : getTeam st g tid = some t)
    (hnmem : uid ∉ t.members) :
    Commands.join st g uid tid =
      some ((st.saveStudent (s.add_team t.guild t.id t.pass)).saveTeam
        { t with members := s.id :: t.members }, CmdOutcome.ok) ∧
    getTeam ((st.saveStudent (s.add_team t.guild t.id t.pass)).saveTeam
        { t with members := s.id :: t.members }) t.guild t.id =
      some { t with members := s.id :: t.members } := by
  have hgti : s.get_team_id g = none := by
    simp [Student.get_team_id, hcred]
  have hne : s.id ∉ t.members := by
    rw [hsid]
    exact hnmem
  constructor
  · simp [Commands.join, hs, hgti, hreqs, hmatch, ht, Team.add_member, hne]
  · exact lookupMap_insertMap_self _ _ _

/-- C9 (witness): the amended theorem applied to the full team g01 of
exStateFull and student 2. -/
theorem join_no_capacity_check_witness :
    Commands.join exStateFull 0 2 "g01" =
      some ((exStateFull.saveStudent
          (exStudent2.add_team 0 "g01" none)).saveTeam
        { exTeamFull with members := 2 :: exTeamFull.members },
        CmdOutcome.ok) := by
  exact (join_no_capacity_check exStateFull 0 2 "g01" exStudent2 exTeamFull
    [⟨"g01", 1⟩, ⟨"g07", 3⟩] (by decide) (by decide) (by decide) (by decide)
    (by decide) (by decide) (by decide)).1

/-! ### C3: mutations of a confirmed team (corrected) -/

/-- C3 (counterexample): team g01 of exStateC is confirmed, yet the invited
third party 2 joins it successfully with outcome ok and enters the member
set — the claim requires join to be rejected with TeamLocked and the
membership to stay unchanged. -/
theorem join_confirmed_counterexample :
    getTeam exStateC 0 "g01" = some exTeam1c ∧
    exTeam1c.confirmed = true ∧
    Commands.join exStateC 0 2 "g01" = some (c3Res.1, CmdOutcome.ok) ∧
    (getTeam c3Res.1 0 "g01").map Team.members = some [2, 1] := by
  decide

/-- C3 (amended): for a confirmed team, invite by a member and leave by a
member are rejected with TeamLocked and return the state unchanged; once the
flag is false (as unconfirm makes it) neither command returns TeamLocked any
more; join, however, is not gated on the flag: a third party holding a
matching pending invitation joins successfully even while the team is
confirmed. -/
theorem confirmed_team_lock_spec (st : State) (g : GuildId) (uid : UserId)
    (tid : String) (s : Student) (t : Team)
    (hs : getStudent st uid = some s)
    (hgti : s.get_team_id g = some tid)
    (ht : getTeam st g tid = some t) :
    (t.confirmed = true → ∀ others,
      Commands.invite st g uid others = some (st, CmdOutcome.teamLocked)) ∧
    (t.confirmed = true →
      Commands.leave st g uid = some (st, CmdOutcome.teamLocked)) ∧
    (t.confirmed = false → ∀ others p,
      Commands.invite st g uid others = some p → p.2 ≠ CmdOutcome.teamLocked) ∧
    (t.confirmed = false → ∀ p,
      Commands.leave st g uid = some p → p.2 ≠ CmdOutcome.teamLocked) ∧
    getTeam (Team.unconfirm st t).1 t.guild t.id =
      some { t with confirmed := false } ∧
    (∀ s2 reqs uid2, getStudent st uid2 = some s2 → s2.id = uid2 →
      lookupMap s2.credentials g = none →
      lookupMap s2.team_requests g = some reqs →
      (reqs.filter (fun r => r.team_id == tid)).isEmpty = false →
      ∃ st', Commands.join st g uid2 tid = some (st', CmdOutcome.ok)) := by
  refine ⟨?_, ?_, ?_, ?_, lookupMap_insertMap_self _ _ _, ?_⟩
  · intro hconf others
    simp [Commands.invite, hs, hgti, ht, hconf]
  · intro hconf
    simp [Commands.leave, hs, hgti, ht, hconf]
  · intro hconf others p heq
    simp only [Commands.invite, hs, hgti, ht, hconf] at heq
    rcases hcfg : loadConfig st g with _ | cfg <;> rw [hcfg] at heq
    · exact absurd heq (by simp)
    · simp only [Bool.false_eq_true, if_false] at heq
      by_cases hlen : others.length > cfg.team_capacity - t.members.length
      · rw [if_pos hlen] at heq
        injection heq with h
        subst h
        simp
      · rw [if_neg hlen] at heq
        rcases hcol : collectInvitable st g uid others with _ | inv <;>
          rw [hcol] at heq
        · exact absurd heq (by simp)
        · injection heq with h
          subst h
          simp
  · intro hconf p heq
    simp only [Commands.leave, hs, hgti, ht, hconf] at heq
    rcases hrm : Team.remove_member st t s with _ | r
    · rw [hrm] at heq
      exact absurd heq (by simp)
    · rw [hrm] at heq
      simp only [Bool.false_eq_true, if_false] at heq
      injection heq with h
      subst h
      simp
  · intro s2 reqs uid2 hs2 hsid2 hcred2 hreqs2 hmatch2
    have hgti2 : s2.get_team_id g = none := by
      simp [Student.get_team_id, hcred2]
    by_cases hmem : s2.id ∈ t.members
    · exact ⟨st, by simp [Commands.join, hs2, hgti2, hreqs2, hmatch2, ht,
        Team.add_member, hmem]⟩
    · exact ⟨(st.saveStudent (s2.add_team t.guild t.id t.pass)).saveTeam
        { t with members := s2.id :: t.members },
        by simp [Commands.join, hs2, hgti2, hreqs2, hmatch2, ht,
          Team.add_member, hmem]⟩

/-- C3 (witness): on exStateC — whose team g01 is confirmed — invite and
leave by member 1 are rejected with TeamLocked while the invited student 2
still joins with outcome ok. -/
theorem confirmed_team_lock_spec_witness :
    Commands.invite exStateC 0 1 [2] = some (exStateC, CmdOutcome.teamLocked) ∧
    Commands.leave exStateC 0 1 = some (exStateC, CmdOutcome.teamLocked) ∧
    ∃ st', Commands.join exStateC 0 2 "g01" = some (st', CmdOutcome.ok) := by
  have h := confirmed_team_lock_spec exStateC 0 1 "g01" exStudent1 exTeam1c
    (by decide) (by decide) (by decide)
  exact ⟨h.1 (by decide) [2], h.2.1 (by decide),
    h.2.2.2.2.2 exStudent2 [⟨"g01", 1⟩, ⟨"g07", 3⟩] 2 (by decide) (by decide)
      (by decide) (by decide) (by decide)⟩

/-! ### C5: the create, invite, join workflow -/

/-- C5: after a successful create by a, invite of b and join by b in one
guild, the invitee b is affiliated with exactly the invited team — stored
credentials naming the team identifier and carrying the team password — and
the whole pending-request list of b for that guild is gone, not only the
matched invitation. -/
theorem create_invite_join_spec (st0 st1 st2 st3 : State) (g : GuildId)
    (a b : UserId) (tid : String) (others : List UserId)
    (_hcr : Commands.create st0 g a others = some (st1, CmdOutcome.ok, some tid))
    (_hin : Commands.invite st1 g a [b] = some (st2, CmdOutcome.ok))
    (hinv : RegistryInv st2)
    (hjo : Commands.join st2 g b tid = some (st3, CmdOutcome.ok)) :
    ∃ s' t', getStudent st3 b = some s' ∧ getTeam st3 g tid = some t' ∧
      lookupMap s'.credentials g = some ⟨tid, t'.pass⟩ ∧
      s'.get_team_id g = some tid ∧
      lookupMap s'.team_requests g = none ∧
      b ∈ t'.members := by
  obtain ⟨⟨hWT, hWS⟩, hMC, _⟩ := hinv
  simp only [Commands.join] at hjo
  rcases hgs : getStudent st2 b with _ | s <;> rw [hgs] at hjo
  · exact absurd hjo (by simp)
  · simp only [] at hjo
    by_cases hti : (s.get_team_id g).isSome
    · rw [if_pos hti] at hjo
      injection hjo with h
      injection h with h1 h2
      exact absurd h2 (by decide)
    · rw [if_neg hti] at hjo
      rcases hreqs : lookupMap s.team_requests g with _ | reqs <;>
        rw [hreqs] at hjo
      · injection hjo with h
        injection h with h1 h2
        exact absurd h2 (by decide)
      · simp only [] at hjo
        by_cases hfl : (reqs.filter (fun r => r.team_id == tid)).isEmpty = true
        · rw [if_pos hfl] at hjo
          injection hjo with h
          injection h with h1 h2
          exact absurd h2 (by decide)
        · rw [if_neg hfl] at hjo
          rcases hgt : getTeam st2 g tid with _ | t <;> rw [hgt] at hjo
          · exact absurd hjo (by simp)
          · simp only [] at hjo
            have hkg : t.guild = g := (hWT _ (lookupMap_mem _ _ _ hgt)).1
            have hki : t.id = tid := (hWT _ (lookupMap_mem _ _ _ hgt)).2
            have hsid : s.id = b := hWS _ (lookupMap_mem _ _ _ hgs)
            have hcred : lookupMap s.credentials g = none := by
              have := Option.not_isSome_iff_eq_none.1 hti
              simpa [Student.get_team_id] using this
            have hnm : s.id ∉ t.members := by
              intro hmem
              have hc := hMC _ (lookupMap_mem _ _ _ hgt) s.id hmem
              unfold credOf at hc
              rw [show getStudent st2 s.id = some s from by rw [hsid]; exact hgs]
                at hc
              simp only [] at hc
              rw [show ((g, tid), t).2.guild = g from hkg, hcred] at hc
              exact absurd hc (by simp)
            rw [show Team.add_member st2 t s =
                ((st2.saveStudent (s.add_team t.guild t.id t.pass)).saveTeam
                  { t with members := s.id :: t.members },
                  { t with members := s.id :: t.members },
                  s.add_team t.guild t.id t.pass) from by
              simp [Team.add_member, hnm]] at hjo
            injection hjo with h
            injection h with h1 h2
            subst h1
            refine ⟨s.add_team t.guild t.id t.pass,
              { t with members := s.id :: t.members }, ?_, ?_, ?_, ?_, ?_, ?_⟩
            · show lookupMap _ b = _
              simp only [State.saveTeam, State.saveStudent]
              rw [show (s.add_team t.guild t.id t.pass).id = b from hsid]
              exact lookupMap_insertMap_self _ _ _
            · show lookupMap _ (g, tid) = _
              simp only [State.saveTeam]
              rw [show ((({ t with members := s.id :: t.members } : Team).guild),
                  (({ t with members := s.id :: t.members } : Team).id)) = (g, tid) from by
                simp [hkg, hki]]
              exact lookupMap_insertMap_self _ _ _
            · show lookupMap (insertMap s.credentials t.guild ⟨t.id, t.pass⟩) g = _
              rw [hkg, hki]
              exact lookupMap_insertMap_self _ _ _
            · show (lookupMap (insertMap s.credentials t.guild ⟨t.id, t.pass⟩) g).map
                Credentials.team = _
              rw [hkg, hki, lookupMap_insertMap_self]
              rfl
            · show lookupMap (eraseMap s.team_requests t.guild) g = none
              rw [hkg]
              exact lookupMap_eraseMap_self _ _
            · rw [← hsid]
              exact List.mem_cons_self _ _

/-- C5 (witness): the concrete chain in which student 1 creates g01 in
c5St0, invites student 2 — who already held an invitation to g07 — and
student 2 joins. -/
theorem create_invite_join_spec_witness :
    ∃ s' t', getStudent c5St3 2 = some s' ∧ getTeam c5St3 0 "g01" = some t' ∧
      lookupMap s'.credentials 0 = some ⟨"g01", t'.pass⟩ ∧
      s'.get_team_id 0 = some "g01" ∧
      lookupMap s'.team_requests 0 = none ∧
      2 ∈ t'.members := by
  exact create_invite_join_spec c5St0 c5St1 c5St2 c5St3 0 1 2 "g01" []
    (by decide) (by decide) (by decide) (by decide)

/-! ### Helper lemmas for the registry invariant -/

theorem getTeam_saveTeam (st : State) (t' : Team) (a : GuildId) (b : String) :
    getTeam (st.saveTeam t') a b =
      if (a, b) = (t'.guild, t'.id) then some t' else getTeam st a b := by
  by_cases h : (a, b) = (t'.guild, t'.id)
  · rw [if_pos h]
    show lookupMap _ _ = _
    rw [h]
    exact lookupMap_insertMap_self _ _ _
  · rw [if_neg h]
    exact lookupMap_insertMap_ne _ _ _ _ h

theorem getTeam_eraseTeamFile (st : State) (g : GuildId) (tid : String)
    (a : GuildId) (b : String) :
    getTeam (st.eraseTeamFile g tid) a b =
      if (a, b) = (g, tid) then none else getTeam st a b := by
  by_cases h : (a, b) = (g, tid)
  · rw [if_pos h]
    show lookupMap _ _ = _
    rw [h]
    exact lookupMap_eraseMap_self _ _
  · rw [if_neg h]
    exact lookupMap_eraseMap_ne _ _ _ h

theorem credOf_saveStudent (st : State) (s' : Student) (uid : UserId)
    (g : GuildId) :
    credOf (st.saveStudent s') uid g =
      if uid = s'.id then lookupMap s'.credentials g else credOf st uid g := by
  by_cases h : uid = s'.id
  · rw [if_pos h]
    unfold credOf getStudent
    rw [show lookupMap (st.saveStudent s').students uid = some s' from by
      rw [h]
      exact lookupMap_insertMap_self _ _ _]
  · rw [if_neg h]
    unfold credOf getStudent
    rw [show lookupMap (st.saveStudent s').students uid =
      lookupMap st.students uid from lookupMap_insertMap_ne _ _ _ _ h]

theorem credOf_congr {st st' : State} (uid : UserId) (g : GuildId)
    (h : lookupMap st'.students uid = lookupMap st.students uid) :
    credOf st' uid g = credOf st uid g := by
  unfold credOf getStudent
  rw [h]

theorem credOf_eq_lookup {st : State} {s : Student}
    (hS : getStudent st s.id = some s) (g : GuildId) :
    credOf st s.id g = lookupMap s.credentials g := by
  unfold credOf
  rw [hS]

theorem memberCred_of_getTeam {st : State} (hMC : MembersHaveCreds st)
    {g0 : GuildId} {tid0 : String} {t : Team} (hT : getTeam st g0 tid0 = some t)
    {uid : UserId} (huid : uid ∈ t.members) :
    credOf st uid t.guild = some ⟨t.id, t.pass⟩ :=
  hMC _ (lookupMap_mem _ _ _ hT) uid huid

theorem not_member_of_no_cred {st : State} {t : Team} {s : Student}
    (hMC : MembersHaveCreds st) (hT : getTeam st t.guild t.id = some t)
    (hS : getStudent st s.id = some s)
    (hcred : lookupMap s.credentials t.guild = none) :
    s.id ∉ t.members := by
  intro hmem
  have hc := memberCred_of_getTeam hMC hT hmem
  rw [credOf_eq_lookup hS, hcred] at hc
  exact absurd hc (by simp)

theorem registryInv_of_saveTeam_frame (st : State) (t t' : Team)
    (hInv : RegistryInv st) (hT : getTeam st t.guild t.id = some t)
    (hg : t'.guild = t.guild) (hi : t'.id = t.id)
    (hm : t'.members = t.members) (hp : t'.pass = t.pass) :
    RegistryInv (st.saveTeam t') := by
  obtain ⟨⟨hWT, hWS⟩, hMC, hCM⟩ := hInv
  refine ⟨⟨?_, ?_⟩, ?_, ?_⟩
  · intro e he
    rw [show (st.saveTeam t').teams =
      insertMap st.teams (t'.guild, t'.id) t' from rfl, mem_insertMap] at he
    rcases he with he | ⟨he, _⟩
    · subst he
      exact ⟨rfl, rfl⟩
    · exact hWT e he
  · intro se hse
    exact hWS se hse
  · intro e he uid hu
    rw [show (st.saveTeam t').teams =
      insertMap st.teams (t'.guild, t'.id) t' from rfl, mem_insertMap] at he
    have hco : ∀ x g', credOf (st.saveTeam t') x g' = credOf st x g' :=
      fun x g' => credOf_congr x g' rfl
    rcases he with he | ⟨he, _⟩
    · subst he
      rw [hco]
      show credOf st uid t'.guild = some ⟨t'.id, t'.pass⟩
      rw [hg, hi, hp]
      apply memberCred_of_getTeam hMC hT
      rw [show (((t'.guild, t'.id), t') : (GuildId × String) × Team).2.members =
        t.members from by rw [hm]] at hu
      exact hu
    · rw [hco]
      exact hMC e he uid hu
  · intro se hse ce hce
    obtain ⟨tt, htt, hmem⟩ := hCM se hse ce hce
    rw [Option.mem_toList, Option.mem_def] at htt
    by_cases hk : (ce.1, ce.2.team) = (t'.guild, t'.id)
    · refine ⟨t', ?_, ?_⟩
      · rw [Option.mem_toList, Option.mem_def, getTeam_saveTeam, if_pos hk]
      · have hk2 : (ce.1, ce.2.team) = (t.guild, t.id) := by
          rw [hk, hg, hi]
        have : getTeam st ce.1 ce.2.team = some t := by
          rw [show ce.1 = t.guild from congrArg Prod.fst hk2,
            show ce.2.team = t.id from congrArg Prod.snd hk2]
          exact hT
        rw [this] at htt
        injection htt with htt
        rw [hm, htt]
        exact hmem
    · refine ⟨tt, ?_, hmem⟩
      rw [Option.mem_toList, Option.mem_def, getTeam_saveTeam, if_neg hk]
      exact htt

theorem registryInv_add_member (st : State) (t : Team) (s : Student)
    (hInv : RegistryInv st) (hT : getTeam st t.guild t.id = some t)
    (hS : getStudent st s.id = some s)
    (hcred : lookupMap s.credentials t.guild = none) :
    RegistryInv (Team.add_member st t s).1 := by
  obtain ⟨⟨hWT, hWS⟩, hMC, hCM⟩ := hInv
  have hnm : s.id ∉ t.members := not_member_of_no_cred hMC hT hS hcred
  unfold Team.add_member
  rw [if_neg hnm]
  show RegistryInv ((st.saveStudent (s.add_team t.guild t.id t.pass)).saveTeam
    { t with members := s.id :: t.members })
  have hco : ∀ x g', credOf ((st.saveStudent
      (s.add_team t.guild t.id t.pass)).saveTeam
        { t with members := s.id :: t.members }) x g' =
      if x = s.id then
        lookupMap (s.add_team t.guild t.id t.pass).credentials g'
      else credOf st x g' :=
    fun x g' => (credOf_congr x g' rfl).trans (credOf_saveStudent st _ x g')
  have hgt2 : ∀ a b, getTeam ((st.saveStudent
      (s.add_team t.guild t.id t.pass)).saveTeam
        { t with members := s.id :: t.members }) a b =
      if (a, b) = (t.guild, t.id) then
        some { t with members := s.id :: t.members }
      else getTeam st a b :=
    fun a b => getTeam_saveTeam _ _ a b
  refine ⟨⟨?_, ?_⟩, ?_, ?_⟩
  · intro e he
    rw [show ((st.saveStudent (s.add_team t.guild t.id t.pass)).saveTeam
      { t with members := s.id :: t.members }).teams =
      insertMap st.teams (t.guild, t.id)
        { t with members := s.id :: t.members } from rfl, mem_insertMap] at he
    rcases he with he | ⟨he, _⟩
    · subst he
      exact ⟨rfl, rfl⟩
    · exact hWT e he
  · intro se hse
    rw [show ((st.saveStudent (s.add_team t.guild t.id t.pass)).saveTeam
      { t with members := s.id :: t.members }).students =
      insertMap st.students s.id
        (s.add_team t.guild t.id t.pass) from rfl, mem_insertMap] at hse
    rcases hse with hse | ⟨hse, _⟩
    · subst hse
      rfl
    · exact hWS se hse
  · intro e he uid hu
    rw [show ((st.saveStudent (s.add_team t.guild t.id t.pass)).saveTeam
      { t with members := s.id :: t.members }).teams =
      insertMap st.teams (t.guild, t.id)
        { t with members := s.id :: t.members } from rfl, mem_insertMap] at he
    rcases he with he | ⟨he, hne⟩
    · subst he
      rw [hco]
      have hu2 : uid ∈ s.id :: t.members := hu
      rcases List.mem_cons.1 hu2 with h | h
      · rw [if_pos h]
        subst h
        exact lookupMap_insertMap_self _ _ _
      · have hx : uid ≠ s.id := fun hh => hnm (hh ▸ h)
        rw [if_neg hx]
        exact memberCred_of_getTeam hMC hT h
    · rw [hco]
      by_cases hx : uid = s.id
      · subst hx
        rw [if_pos rfl]
        by_cases hgg : e.2.guild = t.guild
        · exfalso
          have hc := hMC e he s.id hu
          rw [hgg, credOf_eq_lookup hS, hcred] at hc
          exact absurd hc (by simp)
        · rw [show lookupMap (s.add_team t.guild t.id t.pass).credentials
            e.2.guild = lookupMap s.credentials e.2.guild from
            lookupMap_insertMap_ne _ _ _ _ hgg]
          rw [← credOf_eq_lookup hS]
          exact hMC e he s.id hu
      · rw [if_neg hx]
        exact hMC e he uid hu
  · intro se hse ce hce
    rw [show ((st.saveStudent (s.add_team t.guild t.id t.pass)).saveTeam
      { t with members := s.id :: t.members }).students =
      insertMap st.students s.id
        (s.add_team t.guild t.id t.pass) from rfl, mem_insertMap] at hse
    rcases hse with hse | ⟨hse, hsne⟩
    · subst hse
      have hce' : ce ∈ insertMap s.credentials t.guild ⟨t.id, t.pass⟩ := hce
      rw [mem_insertMap] at hce'
      rcases hce' with hce' | ⟨hce', hcne⟩
      · subst hce'
        refine ⟨{ t with members := s.id :: t.members }, ?_, ?_⟩
        · rw [Option.mem_toList, Option.mem_def, hgt2, if_pos rfl]
        · exact List.mem_cons_self _ _
      · obtain ⟨tt, htt, hmem⟩ := hCM (s.id, s) (lookupMap_mem _ _ _ hS) ce hce'
        rw [Option.mem_toList, Option.mem_def] at htt
        refine ⟨tt, ?_, hmem⟩
        rw [Option.mem_toList, Option.mem_def, hgt2,
          if_neg (show ¬((ce.1, ce.2.team) = (t.guild, t.id)) from
            fun hk => hcne (congrArg Prod.fst hk))]
        exact htt
    · obtain ⟨tt, htt, hmem⟩ := hCM se hse ce hce
      rw [Option.mem_toList, Option.mem_def] at htt
      by_cases hk : (ce.1, ce.2.team) = (t.guild, t.id)
      · have hgot : getTeam st ce.1 ce.2.team = some t := by
          rw [show ce.1 = t.guild from congrArg Prod.fst hk,
            show ce.2.team = t.id from congrArg Prod.snd hk]
          exact hT
        rw [hgot] at htt
        injection htt with htt
        refine ⟨{ t with members := s.id :: t.members }, ?_, ?_⟩
        · rw [Option.mem_toList, Option.mem_def, hgt2, if_pos hk]
        · show se.1 ∈ s.id :: t.members
          apply List.mem_cons_of_mem
          rw [htt]
          exact hmem
      · refine ⟨tt, ?_, hmem⟩
        rw [Option.mem_toList, Option.mem_def, hgt2, if_neg hk]
        exact htt

theorem removeCredsFold_spec (g : GuildId) :
    ∀ (l : List UserId) (st st' : State),
      (∀ se ∈ st.students, se.2.id = se.1) →
      removeCredsFold g l st = some st' →
      st'.teams = st.teams ∧
      (∀ uid, uid ∉ l →
        lookupMap st'.students uid = lookupMap st.students uid) ∧
      (∀ uid g', g' ≠ g → credOf st' uid g' = credOf st uid g') ∧
      (∀ p ∈ st'.students, ∃ q ∈ st.students, p.1 = q.1 ∧ p.2.id = q.2.id ∧
        ∀ ce ∈ p.2.credentials, ce ∈ q.2.credentials) ∧
      (∀ p ∈ st'.students, p.1 ∈ l → ∀ ce ∈ p.2.credentials, ce.1 ≠ g) := by
  intro l
  induction l with
  | nil =>
    intro st st' _ heq
    injection heq with heq
    subst heq
    refine ⟨rfl, fun uid _ => rfl, fun uid g' _ => rfl, ?_, ?_⟩
    · intro p hp
      exact ⟨p, hp, rfl, rfl, fun ce hce => hce⟩
    · intro p _ hmem
      exact absurd hmem (List.not_mem_nil _)
  | cons uid rest ih =>
    intro st st' hWS heq
    unfold removeCredsFold at heq
    rcases hgs : getStudent st uid with _ | s <;> rw [hgs] at heq
    · exact absurd heq (by simp)
    · have hsid : s.id = uid := hWS _ (lookupMap_mem _ _ _ hgs)
      have hWS2 : ∀ se ∈ (st.saveStudent (s.remove_team g)).students,
          se.2.id = se.1 := by
        intro se hse
        rw [show (st.saveStudent (s.remove_team g)).students =
          insertMap st.students s.id (s.remove_team g) from rfl,
          mem_insertMap] at hse
        rcases hse with hse | ⟨hse, _⟩
        · subst hse
          rfl
        · exact hWS se hse
      obtain ⟨ht, hlk, hcross, hent, hkey⟩ :=
        ih (st.saveStudent (s.remove_team g)) st' hWS2 heq
      have hlkm : ∀ x, lookupMap (st.saveStudent (s.remove_team g)).students x =
          if x = uid then some (s.remove_team g)
          else lookupMap st.students x := by
        intro x
        by_cases hx : x = uid
        · rw [if_pos hx]
          show lookupMap (insertMap st.students s.id (s.remove_team g)) x = _
          rw [hx, ← hsid]
          exact lookupMap_insertMap_self _ _ _
        · rw [if_neg hx]
          show lookupMap (insertMap st.students s.id (s.remove_team g)) x = _
          exact lookupMap_insertMap_ne _ _ _ _ (by rw [hsid]; exact hx)
      have hco1 : ∀ x g', credOf (st.saveStudent (s.remove_team g)) x g' =
          if x = uid then lookupMap (eraseMap s.credentials g) g'
          else credOf st x g' := by
        intro x g'
        rw [credOf_saveStudent]
        simp only [Student.remove_team]
        by_cases hx : x = uid
        · rw [if_pos (hx.trans hsid.symm), if_pos hx]
        · rw [if_neg (show ¬x = s.id from fun hh => hx (hh.trans hsid)),
            if_neg hx]
      refine ⟨ht, ?_, ?_, ?_, ?_⟩
      · intro x hx
        have hx1 : x ∉ rest := fun hh => hx (List.mem_cons_of_mem _ hh)
        have hx2 : x ≠ uid := fun hh => hx (hh ▸ List.mem_cons_self _ _)
        rw [hlk x hx1, hlkm x, if_neg hx2]
      · intro x g' hg'
        rw [hcross x g' hg', hco1 x g']
        by_cases hx : x = uid
        · rw [if_pos hx]
          rw [lookupMap_eraseMap_ne _ _ _ hg']
          have : credOf st x g' = lookupMap s.credentials g' := by
            unfold credOf
            rw [hx, hgs]
          rw [this]
        · rw [if_neg hx]
      · intro p hp
        obtain ⟨q1, hq1, hpq1, hpid1, hsub1⟩ := hent p hp
        rw [show (st.saveStudent (s.remove_team g)).students =
          insertMap st.students s.id (s.remove_team g) from rfl,
          mem_insertMap] at hq1
        rcases hq1 with hq1 | ⟨hq1, _⟩
        · refine ⟨(uid, s), lookupMap_mem _ _ _ hgs, ?_, ?_, ?_⟩
          · rw [hpq1, hq1, ← hsid]
          · rw [hpid1, hq1]
            rfl
          · intro ce hce
            have := hsub1 ce hce
            rw [hq1] at this
            exact (mem_eraseMap _ _ _).1 this |>.1
        · exact ⟨q1, hq1, hpq1, hpid1, hsub1⟩
      · intro p hp hpl ce hce
        rcases List.mem_cons.1 hpl with hpu | hpr
        · obtain ⟨q1, hq1, hpq1, _, hsub1⟩ := hent p hp
          rw [show (st.saveStudent (s.remove_team g)).students =
            insertMap st.students s.id (s.remove_team g) from rfl,
            mem_insertMap] at hq1
          rcases hq1 with hq1 | ⟨_, hq1ne⟩
          · have := hsub1 ce hce
            rw [hq1] at this
            exact ((mem_eraseMap _ _ _).1 this).2
          · exfalso
            apply hq1ne
            rw [← hpq1, hpu]
            exact hsid.symm
        · exact hkey p hp hpr ce hce

theorem registryInv_delete (st : State) (t : Team) (st' : State)
    (hInv : RegistryInv st) (hT : getTeam st t.guild t.id = some t)
    (heq : Team.delete st t = some st') : RegistryInv st' := by
  obtain ⟨⟨hWT, hWS⟩, hMC, hCM⟩ := hInv
  unfold Team.delete at heq
  rcases hf : removeCredsFold t.guild t.members st with _ | st1 <;>
    rw [hf] at heq
  · exact absurd heq (by simp)
  · simp only [] at heq
    by_cases hex : (getTeam st1 t.guild t.id).isSome
    · rw [if_pos hex] at heq
      injection heq with heq
      subst heq
      obtain ⟨ht1, hlk, hcross, hent, hkeys⟩ :=
        removeCredsFold_spec t.guild t.members st st1 hWS hf
      have hteams2 : (st1.eraseTeamFile t.guild t.id).teams =
          eraseMap st.teams (t.guild, t.id) := by
        show eraseMap st1.teams _ = _
        rw [ht1]
      have hcredid : ∀ x g', credOf (st1.eraseTeamFile t.guild t.id) x g' =
          credOf st1 x g' := fun x g' => credOf_congr x g' rfl
      have hgt : ∀ a b, getTeam (st1.eraseTeamFile t.guild t.id) a b =
          if (a, b) = (t.guild, t.id) then none else getTeam st a b := by
        intro a b
        rw [getTeam_eraseTeamFile]
        by_cases hk : (a, b) = (t.guild, t.id)
        · rw [if_pos hk, if_pos hk]
        · rw [if_neg hk, if_neg hk]
          show lookupMap st1.teams _ = _
          rw [ht1]
          rfl
      refine ⟨⟨?_, ?_⟩, ?_, ?_⟩
      · intro e he
        rw [hteams2, mem_eraseMap] at he
        exact hWT e he.1
      · intro se hse
        obtain ⟨q, hq, h1, h2, _⟩ := hent se hse
        rw [h2, hWS q hq, h1]
      · intro e he x hx
        rw [hteams2, mem_eraseMap] at he
        obtain ⟨he, hne⟩ := he
        rw [hcredid]
        by_cases hgg : e.2.guild = t.guild
        · have hxt : x ∉ t.members := by
            intro hxt
            have h1 := hMC e he x hx
            have h2 := memberCred_of_getTeam hMC hT hxt
            rw [hgg] at h1
            rw [h1] at h2
            injection h2 with h2
            have hid : e.2.id = t.id := congrArg Credentials.team h2
            apply hne
            show e.1 = (t.guild, t.id)
            have he1 : e.1 = (e.2.guild, e.2.id) := by
              rw [(hWT e he).1, (hWT e he).2]
            rw [he1, hgg, hid]
          rw [credOf_congr x e.2.guild (hlk x hxt)]
          exact hMC e he x hx
        · rw [hcross x e.2.guild hgg]
          exact hMC e he x hx
      · intro se hse ce hce
        obtain ⟨q, hq, hpq, _, hsub⟩ := hent se hse
        have hceq := hsub ce hce
        obtain ⟨tt, htt, hmem⟩ := hCM q hq ce hceq
        rw [Option.mem_toList, Option.mem_def] at htt
        by_cases hk : (ce.1, ce.2.team) = (t.guild, t.id)
        · exfalso
          have hgot : getTeam st ce.1 ce.2.team = some t := by
            rw [show ce.1 = t.guild from congrArg Prod.fst hk,
              show ce.2.team = t.id from congrArg Prod.snd hk]
            exact hT
          rw [hgot] at htt
          injection htt with htt
          have hmem2 : se.1 ∈ t.members := by
            rw [hpq, htt]
            exact hmem
          exact hkeys se hse hmem2 ce hce (congrArg Prod.fst hk)
        · refine ⟨tt, ?_, by rw [hpq]; exact hmem⟩
          rw [Option.mem_toList, Option.mem_def, hgt, if_neg hk]
          exact htt
    · rw [if_neg hex] at heq
      exact absurd heq (by simp)

theorem setPwFold_spec (g : GuildId) (pw : String) :
    ∀ (l : List UserId) (st st' : State),
      (∀ se ∈ st.students, se.2.id = se.1) →
      setPwFold g pw l st = some st' →
      st'.teams = st.teams ∧
      (∀ uid, uid ∉ l →
        lookupMap st'.students uid = lookupMap st.students uid) ∧
      (∀ uid, (credOf st' uid g).map Credentials.team =
        (credOf st uid g).map Credentials.team) ∧
      (∀ uid ∈ l, ∃ tm, credOf st' uid g = some ⟨tm, some pw⟩) ∧
      (∀ uid g', g' ≠ g → credOf st' uid g' = credOf st uid g') ∧
      (∀ p ∈ st'.students, ∃ q ∈ st.students, p.1 = q.1 ∧ p.2.id = q.2.id ∧
        ∀ ce ∈ p.2.credentials, ce ∈ q.2.credentials ∨
          (ce.1 = g ∧ ∃ c0, lookupMap q.2.credentials g = some c0 ∧
            ce.2.team = c0.team)) := by
  intro l
  induction l with
  | nil =>
    intro st st' _ heq
    injection heq with heq
    subst heq
    refine ⟨rfl, fun uid _ => rfl, fun uid => rfl, ?_, fun uid g' _ => rfl, ?_⟩
    · intro uid hmem
      exact absurd hmem (List.not_mem_nil _)
    · intro p hp
      exact ⟨p, hp, rfl, rfl, fun ce hce => Or.inl hce⟩
  | cons uid rest ih =>
    intro st st' hWS heq
    unfold setPwFold at heq
    rcases hgs : getStudent st uid with _ | s <;> rw [hgs] at heq
    · exact absurd heq (by simp)
    · simp only [] at heq
      rcases hsp : s.set_password g pw with _ | s1 <;> rw [hsp] at heq
      · exact absurd heq (by simp)
      · unfold Student.set_password at hsp
        rcases hc : lookupMap s.credentials g with _ | c <;> rw [hc] at hsp
        · exact absurd hsp (by simp)
        · injection hsp with hsp
          have hsid : s.id = uid := hWS _ (lookupMap_mem _ _ _ hgs)
          have hs1id : s1.id = uid := by
            rw [← hsp]
            exact hsid
          have hs1cred : s1.credentials =
              insertMap s.credentials g ⟨c.team, some pw⟩ := by
            rw [← hsp]
          have hWS2 : ∀ se ∈ (st.saveStudent s1).students, se.2.id = se.1 := by
            intro se hse
            rw [show (st.saveStudent s1).students =
              insertMap st.students s1.id s1 from rfl, mem_insertMap] at hse
            rcases hse with hse | ⟨hse, _⟩
            · subst hse
              rfl
            · exact hWS se hse
          obtain ⟨ht, hlk, htp, hpw, hcross, hent⟩ :=
            ih (st.saveStudent s1) st' hWS2 heq
          have hlkm : ∀ x, lookupMap (st.saveStudent s1).students x =
              if x = uid then some s1 else lookupMap st.students x := by
            intro x
            by_cases hx : x = uid
            · rw [if_pos hx]
              show lookupMap (insertMap st.students s1.id s1) x = _
              rw [hx, ← hs1id]
              exact lookupMap_insertMap_self _ _ _
            · rw [if_neg hx]
              show lookupMap (insertMap st.students s1.id s1) x = _
              exact lookupMap_insertMap_ne _ _ _ _ (by rw [hs1id]; exact hx)
          have hco1 : ∀ x g'', credOf (st.saveStudent s1) x g'' =
              if x = uid then lookupMap s1.credentials g''
              else credOf st x g'' := by
            intro x g''
            unfold credOf getStudent
            rw [hlkm x]
            by_cases hx : x = uid
            · rw [if_pos hx, if_pos hx]
            · rw [if_neg hx, if_neg hx]
          have hcredst : credOf st uid g = some c := by
            unfold credOf
            rw [hgs]
            show lookupMap s.credentials g = some c
            exact hc
          refine ⟨ht, ?_, ?_, ?_, ?_, ?_⟩
          · intro x hx
            have hx1 : x ∉ rest := fun hh => hx (List.mem_cons_of_mem _ hh)
            have hx2 : x ≠ uid := fun hh => hx (hh ▸ List.mem_cons_self _ _)
            rw [hlk x hx1, hlkm x, if_neg hx2]
          · intro x
            rw [htp x, hco1 x g]
            by_cases hx : x = uid
            · rw [if_pos hx, hs1cred, lookupMap_insertMap_self, hx, hcredst]
              rfl
            · rw [if_neg hx]
          · intro x hx
            by_cases hxr : x ∈ rest
            · exact hpw x hxr
            · have hxu : x = uid := by
                rcases List.mem_cons.1 hx with h | h
                · exact h
                · exact absurd h hxr
              subst hxu
              have hcu : credOf st' x g = credOf (st.saveStudent s1) x g :=
                credOf_congr x g (hlk x hxr)
              rw [hcu, hco1 x g, if_pos rfl, hs1cred, lookupMap_insertMap_self]
              exact ⟨c.team, rfl⟩
          · intro x g' hg'
            rw [hcross x g' hg', hco1 x g']
            by_cases hx : x = uid
            · rw [if_pos hx, hs1cred, lookupMap_insertMap_ne _ _ _ _ hg']
              unfold credOf
              rw [hx, hgs]
            · rw [if_neg hx]
          · intro p hp
            obtain ⟨q1, hq1, hpq1, hpid1, hsub1⟩ := hent p hp
            rw [show (st.saveStudent s1).students =
              insertMap st.students s1.id s1 from rfl, mem_insertMap] at hq1
            rcases hq1 with hq1 | ⟨hq1, _⟩
            · refine ⟨(uid, s), lookupMap_mem _ _ _ hgs, ?_, ?_, ?_⟩
              · rw [hpq1, hq1]
                exact hs1id
              · rw [hpid1, hq1]
                show s1.id = s.id
                rw [hs1id, hsid]
              · intro ce hce
                rcases hsub1 ce hce with hcein | ⟨hceg, c0, hlc0, hteam⟩
                · rw [hq1] at hcein
                  have hins : ce ∈ insertMap s.credentials g
                      ⟨c.team, some pw⟩ := by
                    rw [← hs1cred]
                    exact hcein
                  rw [mem_insertMap] at hins
                  rcases hins with hh | ⟨hh, _⟩
                  · right
                    refine ⟨by rw [hh], c, hc, by rw [hh]⟩
                  · left
                    exact hh
                · right
                  refine ⟨hceg, c, hc, ?_⟩
                  rw [hq1] at hlc0
                  have hl2 : lookupMap (insertMap s.credentials g
                      ⟨c.team, some pw⟩) g = some c0 := by
                    rw [← hs1cred]
                    exact hlc0
                  rw [lookupMap_insertMap_self] at hl2
                  injection hl2 with hl2
                  rw [hteam, ← hl2]
            · exact ⟨q1, hq1, hpq1, hpid1, hsub1⟩

theorem registryInv_set_password (st : State) (t : Team) (pw : String)
    (r : State × Team) (hInv : RegistryInv st)
    (hT : getTeam st t.guild t.id = some t)
    (heq : Team.set_password st t pw = some r) : RegistryInv r.1 := by
  obtain ⟨⟨hWT, hWS⟩, hMC, hCM⟩ := hInv
  have heq2 : (match setPwFold t.guild pw t.members st with
      | none => none
      | some st1 => some (st1.saveTeam { t with pass := some pw },
          ({ t with pass := some pw } : Team))) = some r := heq
  rcases hf : setPwFold t.guild pw t.members st with _ | st1 <;> rw [hf] at heq2
  · exact absurd heq2 (by simp)
  · injection heq2 with heq2
    subst heq2
    show RegistryInv (st1.saveTeam { t with pass := some pw })
    obtain ⟨ht1, hlk, htp, hpw, hcross, hent⟩ :=
      setPwFold_spec t.guild pw t.members st st1 hWS hf
    have hteams2 : (st1.saveTeam { t with pass := some pw }).teams =
        insertMap st.teams (t.guild, t.id) { t with pass := some pw } := by
      show insertMap st1.teams (t.guild, t.id) _ = _
      rw [ht1]
    have hcred2 : ∀ x g', credOf (st1.saveTeam { t with pass := some pw }) x g' =
        credOf st1 x g' := fun x g' => credOf_congr x g' rfl
    have hgt : ∀ a b, getTeam (st1.saveTeam { t with pass := some pw }) a b =
        if (a, b) = (t.guild, t.id) then some ({ t with pass := some pw } : Team)
        else getTeam st a b := by
      intro a b
      by_cases hk : (a, b) = (t.guild, t.id)
      · rw [if_pos hk]
        show lookupMap (insertMap st1.teams (t.guild, t.id) _) (a, b) = _
        rw [hk]
        exact lookupMap_insertMap_self _ _ _
      · rw [if_neg hk]
        show lookupMap (insertMap st1.teams (t.guild, t.id) _) (a, b) = _
        rw [lookupMap_insertMap_ne _ _ _ _ hk, ht1]
        rfl
    refine ⟨⟨?_, ?_⟩, ?_, ?_⟩
    · intro e he
      rw [hteams2, mem_insertMap] at he
      rcases he with he | ⟨he, _⟩
      · subst he
        exact ⟨rfl, rfl⟩
      · exact hWT e he
    · intro se hse
      obtain ⟨q, hq, h1, h2, _⟩ := hent se hse
      rw [h2, hWS q hq, h1]
    · intro e he uid hu
      rw [hteams2, mem_insertMap] at he
      rcases he with he | ⟨he, hne⟩
      · subst he
        rw [hcred2]
        have hu2 : uid ∈ t.members := hu
        obtain ⟨tm, htm⟩ := hpw uid hu2
        have h1 := htp uid
        rw [htm, memberCred_of_getTeam hMC hT hu2] at h1
        simp only [Option.map_some'] at h1
        injection h1 with h1
        show credOf st1 uid t.guild = some ⟨t.id, some pw⟩
        rw [htm, h1]
      · by_cases hgg : e.2.guild = t.guild
        · have huid : uid ∉ t.members := by
            intro hmem2
            have h1 := hMC e he uid hu
            have h2 := memberCred_of_getTeam hMC hT hmem2
            rw [hgg] at h1
            rw [h1] at h2
            injection h2 with h2
            have hid : e.2.id = t.id := congrArg Credentials.team h2
            apply hne
            show e.1 = (t.guild, t.id)
            have he1 : e.1 = (e.2.guild, e.2.id) := by
              rw [(hWT e he).1, (hWT e he).2]
            rw [he1, hgg, hid]
          rw [hcred2, credOf_congr uid e.2.guild (hlk uid huid)]
          exact hMC e he uid hu
        · rw [hcred2, hcross uid e.2.guild hgg]
          exact hMC e he uid hu
    · intro se hse ce hce
      obtain ⟨q, hq, hpq, _, hsub⟩ := hent se hse
      have hstep : ∃ tt, getTeam st ce.1 ce.2.team = some tt ∧
          q.1 ∈ tt.members := by
        rcases hsub ce hce with hcein | ⟨hceg, c0, hlc0, hteam⟩
        · obtain ⟨tt, htt, hmem⟩ := hCM q hq ce hcein
          rw [Option.mem_toList, Option.mem_def] at htt
          exact ⟨tt, htt, hmem⟩
        · obtain ⟨tt, htt, hmem⟩ :=
            hCM q hq (t.guild, c0) (lookupMap_mem _ _ _ hlc0)
          rw [Option.mem_toList, Option.mem_def] at htt
          refine ⟨tt, ?_, hmem⟩
          rw [hceg, hteam]
          exact htt
      obtain ⟨tt, htt, hmem⟩ := hstep
      by_cases hk : (ce.1, ce.2.team) = (t.guild, t.id)
      · have hgot : getTeam st ce.1 ce.2.team = some t := by
          rw [show ce.1 = t.guild from congrArg Prod.fst hk,
            show ce.2.team = t.id from congrArg Prod.snd hk]
          exact hT
        rw [hgot] at htt
        injection htt with htt
        refine ⟨{ t with pass := some pw }, ?_, ?_⟩
        · rw [Option.mem_toList, Option.mem_def, hgt, if_pos hk]
        · show se.1 ∈ t.members
          rw [hpq, htt]
          exact hmem
      · refine ⟨tt, ?_, by rw [hpq]; exact hmem⟩
        rw [Option.mem_toList, Option.mem_def, hgt, if_neg hk]
        exact htt

theorem registryInv_remove_member (st : State) (t : Team) (s : Student)
    (r : State × Team × Student) (hInv : RegistryInv st)
    (hT : getTeam st t.guild t.id = some t)
    (hS : getStudent st s.id = some s)
    (heq : Team.remove_member st t s = some r) : RegistryInv r.1 := by
  obtain ⟨⟨hWT, hWS⟩, hMC, hCM⟩ := hInv
  unfold Team.remove_member at heq
  by_cases hmem : s.id ∈ t.members
  · rw [if_pos hmem] at heq
    by_cases hfil : t.members.filter (fun uid => uid ≠ s.id) = []
    · rw [hfil] at heq
      simp only [List.isEmpty_nil, if_true] at heq
      unfold Team.delete at heq
      simp only [removeCredsFold] at heq
      have hteams1 : getTeam (st.saveStudent (s.remove_team t.guild))
          t.guild t.id = some t := hT
      rw [hteams1] at heq
      simp only [Option.isSome_some, if_true] at heq
      rcases hnm : loadNamemap
          ((st.saveStudent (s.remove_team t.guild)).eraseTeamFile t.guild t.id)
          t.guild with _ | nm <;> rw [hnm] at heq
      · exact absurd heq (by simp)
      · simp only [] at heq
        rcases hinf : getGuildTeamInfo
            (((st.saveStudent (s.remove_team t.guild)).eraseTeamFile t.guild
              t.id).saveNamemap t.guild (eraseMap nm t.name)) t.guild
            with _ | info <;> rw [hinf] at heq
        · exact absurd heq (by simp)
        · injection heq with heq
          subst heq
          have hco : ∀ x g', credOf ((((st.saveStudent
              (s.remove_team t.guild)).eraseTeamFile t.guild
                t.id).saveNamemap t.guild (eraseMap nm t.name)).saveInfo
                  { info with holes := info.holes ++ [t.id] }) x g' =
              if x = s.id then lookupMap (eraseMap s.credentials t.guild) g'
              else credOf st x g' :=
            fun x g' => (credOf_congr x g' rfl).trans
              (credOf_saveStudent st (s.remove_team t.guild) x g')
          have hgt : ∀ a b, getTeam ((((st.saveStudent
              (s.remove_team t.guild)).eraseTeamFile t.guild
                t.id).saveNamemap t.guild (eraseMap nm t.name)).saveInfo
                  { info with holes := info.holes ++ [t.id] }) a b =
              if (a, b) = (t.guild, t.id) then none else getTeam st a b :=
            fun a b => getTeam_eraseTeamFile
              (st.saveStudent (s.remove_team t.guild)) t.guild t.id a b
          have hall : ∀ x ∈ t.members, x = s.id := by
            intro x hx
            by_contra hne
            have : x ∈ t.members.filter (fun uid => uid ≠ s.id) :=
              List.mem_filter.2 ⟨hx, decide_eq_true hne⟩
            rw [hfil] at this
            exact absurd this (List.not_mem_nil _)
          refine ⟨⟨?_, ?_⟩, ?_, ?_⟩
          · intro e he
            have he2 : e ∈ eraseMap st.teams (t.guild, t.id) := he
            rw [mem_eraseMap] at he2
            exact hWT e he2.1
          · intro se hse
            have hse2 : se ∈ insertMap st.students s.id
                (s.remove_team t.guild) := hse
            rw [mem_insertMap] at hse2
            rcases hse2 with hse2 | ⟨hse2, _⟩
            · subst hse2
              rfl
            · exact hWS se hse2
          · intro e he x hx
            have he2 : e ∈ eraseMap st.teams (t.guild, t.id) := he
            rw [mem_eraseMap] at he2
            obtain ⟨he2, hne⟩ := he2
            rw [hco]
            by_cases hxs : x = s.id
            · rw [if_pos hxs]
              by_cases hgg : e.2.guild = t.guild
              · exfalso
                have h1 := hMC e he2 x hx
                have h2 := memberCred_of_getTeam hMC hT hmem
                rw [hxs, hgg] at h1
                rw [h1] at h2
                injection h2 with h2
                have hid : e.2.id = t.id := congrArg Credentials.team h2
                apply hne
                show e.1 = (t.guild, t.id)
                have he1 : e.1 = (e.2.guild, e.2.id) := by
                  rw [(hWT e he2).1, (hWT e he2).2]
                rw [he1, hgg, hid]
              · rw [lookupMap_eraseMap_ne _ _ _ hgg]
                have h1 := hMC e he2 x hx
                rw [hxs, credOf_eq_lookup hS] at h1
                exact h1
            · rw [if_neg hxs]
              exact hMC e he2 x hx
          · intro se hse ce hce
            have hse2 : se ∈ insertMap st.students s.id
                (s.remove_team t.guild) := hse
            rw [mem_insertMap] at hse2
            rcases hse2 with hse2 | ⟨hse2, hsne⟩
            · subst hse2
              have hce2 : ce ∈ eraseMap s.credentials t.guild := hce
              rw [mem_eraseMap] at hce2
              obtain ⟨hce2, hcne⟩ := hce2
              obtain ⟨tt, htt, hmem2⟩ :=
                hCM (s.id, s) (lookupMap_mem _ _ _ hS) ce hce2
              rw [Option.mem_toList, Option.mem_def] at htt
              refine ⟨tt, ?_, hmem2⟩
              rw [Option.mem_toList, Option.mem_def, hgt,
                if_neg (show ¬((ce.1, ce.2.team) = (t.guild, t.id)) from
                  fun hk => hcne (congrArg Prod.fst hk))]
              exact htt
            · obtain ⟨tt, htt, hmem2⟩ := hCM se hse2 ce hce
              rw [Option.mem_toList, Option.mem_def] at htt
              by_cases hk : (ce.1, ce.2.team) = (t.guild, t.id)
              · exfalso
                have hgot : getTeam st ce.1 ce.2.team = some t := by
                  rw [show ce.1 = t.guild from congrArg Prod.fst hk,
                    show ce.2.team = t.id from congrArg Prod.snd hk]
                  exact hT
                rw [hgot] at htt
                injection htt with htt
                apply hsne
                apply hall
                rw [htt]
                exact hmem2
              · refine ⟨tt, ?_, hmem2⟩
                rw [Option.mem_toList, Option.mem_def, hgt, if_neg hk]
                exact htt
    · have hfil' : (t.members.filter (fun uid => uid ≠ s.id)).isEmpty
          = false := by
        simpa [List.isEmpty_iff] using hfil
      simp only [hfil', if_false, Bool.false_eq_true] at heq
      injection heq with heq
      subst heq
      show RegistryInv ((st.saveStudent (s.remove_team t.guild)).saveTeam
        { t with members := t.members.filter (fun uid => uid ≠ s.id) })
      have hco : ∀ x g', credOf ((st.saveStudent
          (s.remove_team t.guild)).saveTeam
            { t with members := t.members.filter (fun uid => uid ≠ s.id) })
            x g' =
          if x = s.id then lookupMap (eraseMap s.credentials t.guild) g'
          else credOf st x g' :=
        fun x g' => (credOf_congr x g' rfl).trans
          (credOf_saveStudent st (s.remove_team t.guild) x g')
      have hgt : ∀ a b, getTeam ((st.saveStudent
          (s.remove_team t.guild)).saveTeam
            { t with members := t.members.filter (fun uid => uid ≠ s.id) })
            a b =
          if (a, b) = (t.guild, t.id) then
            some ({ t with
              members := t.members.filter (fun uid => uid ≠ s.id) } : Team)
          else getTeam st a b :=
        fun a b => getTeam_saveTeam _ _ a b
      refine ⟨⟨?_, ?_⟩, ?_, ?_⟩
      · intro e he
        rw [show ((st.saveStudent (s.remove_team t.guild)).saveTeam
          { t with members := t.members.filter (fun uid => uid ≠ s.id) }).teams
          = insertMap st.teams (t.guild, t.id)
            { t with members := t.members.filter (fun uid => uid ≠ s.id) }
          from rfl, mem_insertMap] at he
        rcases he with he | ⟨he, _⟩
        · subst he
          exact ⟨rfl, rfl⟩
        · exact hWT e he
      · intro se hse
        have hse2 : se ∈ insertMap st.students s.id
            (s.remove_team t.guild) := hse
        rw [mem_insertMap] at hse2
        rcases hse2 with hse2 | ⟨hse2, _⟩
        · subst hse2
          rfl
        · exact hWS se hse2
      · intro e he x hx
        rw [show ((st.saveStudent (s.remove_team t.guild)).saveTeam
          { t with members := t.members.filter (fun uid => uid ≠ s.id) }).teams
          = insertMap st.teams (t.guild, t.id)
            { t with members := t.members.filter (fun uid => uid ≠ s.id) }
          from rfl, mem_insertMap] at he
        rcases he with he | ⟨he, hne⟩
        · subst he
          rw [hco]
          have hx2 : x ∈ t.members.filter (fun uid => uid ≠ s.id) := hx
          rw [List.mem_filter] at hx2
          have hxs : x ≠ s.id := of_decide_eq_true hx2.2
          rw [if_neg hxs]
          exact memberCred_of_getTeam hMC hT hx2.1
        · rw [hco]
          by_cases hxs : x = s.id
          · rw [if_pos hxs]
            by_cases hgg : e.2.guild = t.guild
            · exfalso
              have h1 := hMC e he x hx
              have h2 := memberCred_of_getTeam hMC hT hmem
              rw [hxs, hgg] at h1
              rw [h1] at h2
              injection h2 with h2
              have hid : e.2.id = t.id := congrArg Credentials.team h2
              apply hne
              show e.1 = (t.guild, t.id)
              have he1 : e.1 = (e.2.guild, e.2.id) := by
                rw [(hWT e he).1, (hWT e he).2]
              rw [he1, hgg, hid]
            · rw [lookupMap_eraseMap_ne _ _ _ hgg]
              have h1 := hMC e he x hx
              rw [hxs, credOf_eq_lookup hS] at h1
              exact h1
          · rw [if_neg hxs]
            exact hMC e he x hx
      · intro se hse ce hce
        have hse2 : se ∈ insertMap st.students s.id
            (s.remove_team t.guild) := hse
        rw [mem_insertMap] at hse2
        rcases hse2 with hse2 | ⟨hse2, hsne⟩
        · subst hse2
          have hce2 : ce ∈ eraseMap s.credentials t.guild := hce
          rw [mem_eraseMap] at hce2
          obtain ⟨hce2, hcne⟩ := hce2
          obtain ⟨tt, htt, hmem2⟩ :=
            hCM (s.id, s) (lookupMap_mem _ _ _ hS) ce hce2
          rw [Option.mem_toList, Option.mem_def] at htt
          refine ⟨tt, ?_, hmem2⟩
          rw [Option.mem_toList, Option.mem_def, hgt,
            if_neg (show ¬((ce.1, ce.2.team) = (t.guild, t.id)) from
              fun hk => hcne (congrArg Prod.fst hk))]
          exact htt
        · obtain ⟨tt, htt, hmem2⟩ := hCM se hse2 ce hce
          rw [Option.mem_toList, Option.mem_def] at htt
          by_cases hk : (ce.1, ce.2.team) = (t.guild, t.id)
          · have hgot : getTeam st ce.1 ce.2.team = some t := by
              rw [show ce.1 = t.guild from congrArg Prod.fst hk,
                show ce.2.team = t.id from congrArg Prod.snd hk]
              exact hT
            rw [hgot] at htt
            injection htt with htt
            refine ⟨{ t with
              members := t.members.filter (fun uid => uid ≠ s.id) }, ?_, ?_⟩
            · rw [Option.mem_toList, Option.mem_def, hgt, if_pos hk]
            · show se.1 ∈ t.members.filter (fun uid => uid ≠ s.id)
              refine List.mem_filter.2 ⟨?_, decide_eq_true hsne⟩
              rw [htt]
              exact hmem2
          · refine ⟨tt, ?_, hmem2⟩
            rw [Option.mem_toList, Option.mem_def, hgt, if_neg hk]
            exact htt
  · rw [if_neg hmem] at heq
    injection heq with heq
    subst heq
    exact ⟨⟨hWT, hWS⟩, hMC, hCM⟩

theorem registryInv_congr {st st' : State} (hs : st'.students = st.students)
    (ht : st'.teams = st.teams) (h : RegistryInv st) : RegistryInv st' := by
  obtain ⟨⟨hWT, hWS⟩, hMC, hCM⟩ := h
  have hcred : ∀ x g', credOf st' x g' = credOf st x g' := by
    intro x g'
    unfold credOf getStudent
    rw [hs]
  have hteam : ∀ a b, getTeam st' a b = getTeam st a b := by
    intro a b
    unfold getTeam
    rw [ht]
  refine ⟨⟨?_, ?_⟩, ?_, ?_⟩
  · intro e he
    rw [ht] at he
    exact hWT e he
  · intro se hse
    rw [hs] at hse
    exact hWS se hse
  · intro e he x hx
    rw [ht] at he
    rw [hcred]
    exact hMC e he x hx
  · intro se hse ce hce
    rw [hs] at hse
    obtain ⟨tt, htt, hm⟩ := hCM se hse ce hce
    rw [Option.mem_toList, Option.mem_def] at htt
    refine ⟨tt, ?_, hm⟩
    rw [Option.mem_toList, Option.mem_def, hteam]
    exact htt

theorem registryInv_change_name (st : State) (t : Team) (nme : String)
    (r : State × Team) (hInv : RegistryInv st)
    (hT : getTeam st t.guild t.id = some t)
    (heq : Team.change_name st t nme = some r) : RegistryInv r.1 := by
  unfold Team.change_name at heq
  rcases hnm : loadNamemap st t.guild with _ | nm <;> rw [hnm] at heq
  · exact absurd heq (by simp)
  · simp only [] at heq
    by_cases hc : containsMap nm nme = true
    · rw [if_pos hc] at heq
      injection heq with heq
      subst heq
      exact hInv
    · rw [if_neg hc] at heq
      injection heq with heq
      subst heq
      show RegistryInv ((st.saveNamemap t.guild
        (insertMap nm nme t.id)).saveTeam { t with name := nme })
      exact registryInv_of_saveTeam_frame
        (st.saveNamemap t.guild (insertMap nm nme t.id)) t
        { t with name := nme }
        (registryInv_congr rfl rfl ⟨⟨hInv.1.1, hInv.1.2⟩, hInv.2.1, hInv.2.2⟩)
        hT rfl rfl rfl rfl

/-! ### C1: the credentials-membership invariant (corrected) -/

/-- C1 (counterexample): exStateB satisfies the registry invariant and holds
student 1 as the member of team g01; a raw add_member of that affiliated
student into the second team g02 completes, and the invariant is broken: the
student is in the member set of g01 while the stored credentials now
reference g02.  The operations layer guards join and create, but the claim
as stated quantifies over addMember itself (and the administrative add
workflow calls it exactly this way). -/
theorem add_member_breaks_invariant :
    RegistryInv exStateB ∧
    getTeam exStateB 0 "g02" = some exTeamB ∧
    getStudent exStateB 1 = some exStudent1 ∧
    ¬RegistryInv (Team.add_member exStateB exTeamB exStudent1).1 := by
  exact ⟨by decide, by decide, by decide, by decide⟩

/-- C1 (amended): for every state satisfying the registry invariant — each
stored team member holds credentials naming that team and its password, and
every stored credential points back to a team holding the student — the
entity operations removeMember, setPassword, confirm, unconfirm, changeName
and delete preserve the invariant whenever they complete, and addMember
preserves it under the precondition that the student holds no credentials
for the team guild (the unaffiliated check that the join, create and move
workflows perform before calling it). -/
theorem registry_invariant_preserved (st : State) (t : Team) (s : Student)
    (hInv : RegistryInv st)
    (hT : getTeam st t.guild t.id = some t)
    (hS : getStudent st s.id = some s) :
    (lookupMap s.credentials t.guild = none →
      RegistryInv (Team.add_member st t s).1) ∧
    (∀ r, Team.remove_member st t s = some r → RegistryInv r.1) ∧
    (∀ pw r, Team.set_password st t pw = some r → RegistryInv r.1) ∧
    RegistryInv (Team.confirm st t).1 ∧
    RegistryInv (Team.unconfirm st t).1 ∧
    (∀ nme r, Team.change_name st t nme = some r → RegistryInv r.1) ∧
    (∀ st', Team.delete st t = some st' → RegistryInv st') :=
  ⟨fun hcred => registryInv_add_member st t s hInv hT hS hcred,
    fun r hr => registryInv_remove_member st t s r hInv hT hS hr,
    fun pw r hr => registryInv_set_password st t pw r hInv hT hr,
    registryInv_of_saveTeam_frame st t _ hInv hT rfl rfl rfl rfl,
    registryInv_of_saveTeam_frame st t _ hInv hT rfl rfl rfl rfl,
    fun nme r hr => registryInv_change_name st t nme r hInv hT hr,
    fun st' hd => registryInv_delete st t st' hInv hT hd⟩

/-- C1 (witness): the amended theorem applied to exState: adding the
unaffiliated student 2 to team g01 keeps the invariant, and so does
confirming the team. -/
theorem registry_invariant_preserved_witness :
    RegistryInv (Team.add_member exState exTeam1 exStudent2).1 ∧
    RegistryInv (Team.confirm exState exTeam1).1 := by
  have h := registry_invariant_preserved exState exTeam1 exStudent2
    (by decide) (by decide) (by decide)
  exact ⟨h.1 (by decide), h.2.2.2.1⟩
